import Mathlib

/-!
Verification of the QR-Seat session relay (send / next / status routes and the
viewer registry) against its natural-language specification.

Shallow embedding conventions:
* JS `number` values (timestamps, versions, TTLs) are modelled as `Int`; the
  routes only ever produce integral values (`Date.now()`, `lastVer + 1`,
  `Math.round`), and no claim depends on fractional arithmetic.
* The raw TTL input `messageTTL` passes through `Number(rawTtl)` in the source;
  we model the result of that coercion as `Option Int`: `none` stands for a
  non-finite result (absent field, `undefined`, or a non-numeric string that
  coerces to `NaN`), `some p` for a finite numeric value.  `Math.round` on an
  integral value is the identity.
* Stored JSON files are modelled by `FileContent`: a session-data shaped
  object, a status shaped object, or unparsable text.  Optional / absent JSON
  fields are `Option` fields of the raw record types, so the load-time
  defaulting of the source is modelled field by field.
* The store is the `.qrseat-data` directory: a map from file name to contents.
  Session `s` keeps its queue in `s ++ ".json"` and its gate in
  `s ++ "-status.json"`, exactly as in the source.
* `Date.now()` is threaded explicitly as a `now : Int` parameter; each HTTP
  handler invocation uses a single `now` for its read-modify-write cycle.
-/

/-- In-memory message record (`SessionMessage` in `send/route.ts`):
`expiresAt` is optional because older stored records lack it. -/
structure SessionMessage where
  id : String
  ver : Int
  timestamp : Int
  expiresAt : Option Int
deriving DecidableEq, Repr

/-- In-memory session record (`SessionData`): `lastVer` is optional because
older stored records lack it. -/
structure SessionData where
  session : String
  lastVer : Option Int
  messages : List SessionMessage
deriving DecidableEq, Repr

/-- DEFAULT_MESSAGE_TTL from `send/route.ts` (5 minutes, in ms). -/
def DEFAULT_MESSAGE_TTL : Int := 5 * 60 * 1000

/-- MIN_MESSAGE_TTL from `send/route.ts` (1 minute, in ms). -/
def MIN_MESSAGE_TTL : Int := 60 * 1000

/-- MAX_MESSAGE_TTL from `send/route.ts` (60 minutes, in ms). -/
def MAX_MESSAGE_TTL : Int := 60 * 60 * 1000

/-- `sanitizeTTL` from `send/route.ts`: non-finite input falls back to the
default, finite input is clamped to `[MIN, MAX]` (`Math.round` is the identity
on an integral value). -/
def sanitizeTTL : Option Int → Int
  | none => DEFAULT_MESSAGE_TTL
  | some p =>
    if p < MIN_MESSAGE_TTL then MIN_MESSAGE_TTL
    else if p > MAX_MESSAGE_TTL then MAX_MESSAGE_TTL
    else p

/-- Effective expiry of a message: `message.expiresAt ?? (message.timestamp +
DEFAULT_MESSAGE_TTL)`, as computed identically in `purgeExpiredMessages` and
`findExistingMessage`. -/
def messageExpiresAt (m : SessionMessage) : Int :=
  m.expiresAt.getD (m.timestamp + DEFAULT_MESSAGE_TTL)

/-- Filter predicate of `purgeExpiredMessages`: keep a message iff
`expiresAt > now`. -/
def isLive (now : Int) (m : SessionMessage) : Bool :=
  decide (messageExpiresAt m > now)

/-- `purgeExpiredMessages` from `send/route.ts` (the copy in the next route is
textually identical): drops every message whose effective expiry is `≤ now`
and reports whether anything was dropped. -/
def purgeExpiredMessages (d : SessionData) (now : Int) : SessionData × Bool :=
  let kept := d.messages.filter (isLive now)
  ({ d with messages := kept }, decide (kept.length ≠ d.messages.length))

/-- Reduction inside `ensureLastVersion`: the highest `ver` among `msgs`,
starting from 0. -/
def highestVersion (msgs : List SessionMessage) : Int :=
  msgs.foldl (fun acc m => if m.ver > acc then m.ver else acc) 0

/-- `ensureLastVersion` from `send/route.ts` (also inlined in the next route's
`saveSessionData`): when `lastVer` is not a number, default it to the highest
message version currently in the record. -/
def ensureLastVersion (d : SessionData) : SessionData :=
  match d.lastVer with
  | some _ => d
  | none => { d with lastVer := some (highestVersion d.messages) }

/-- `findExistingMessage` from `send/route.ts`: the version of the first
message matching `i` that is still live, or `none`. -/
def findExistingMessage (d : SessionData) (i : String) (now : Int) : Option Int :=
  (d.messages.find? (fun m => m.id == i && decide (messageExpiresAt m > now))).map
    (fun m => m.ver)

/-- Raw (JSON-level) message as read from disk; every field may be absent. -/
structure RawMessage where
  id : Option String
  ver : Option Int
  timestamp : Option Int
  expiresAt : Option Int
deriving DecidableEq, Repr

/-- Raw (JSON-level) session record as read from disk: `messages = none`
models an absent or non-array `messages` field, `lastVer = none` an absent or
non-number `lastVer` field. -/
structure RawSessionData where
  lastVer : Option Int
  messages : Option (List RawMessage)
deriving DecidableEq, Repr

/-- Slice of JS values that can sit in the `active` field of a stored status
file (which is parsed with a blind `as SessionStatus` cast, no validation). -/
inductive JsVal where
  | vBool : Bool → JsVal
  | vNum : Int → JsVal
  | vStr : String → JsVal
  | vNull : JsVal
deriving DecidableEq, Repr

/-- JS truthiness of a `JsVal`, as used by `if (!sessionStatus.active)`. -/
def JsVal.truthy : JsVal → Bool
  | .vBool b => b
  | .vNum n => decide (n ≠ 0)
  | .vStr s => decide (s ≠ "")
  | .vNull => false

/-- Raw (JSON-level) status record (`SessionStatus` shape; no field is
checked when loading, so all are optional). -/
structure RawStatus where
  session : Option String
  active : Option JsVal
  lastUpdate : Option Int
deriving DecidableEq, Repr

/-- Contents of one file in the `.qrseat-data` directory. -/
inductive FileContent where
  | dataJson : RawSessionData → FileContent
  | statusJson : RawStatus → FileContent
  | unparsable : FileContent
deriving DecidableEq, Repr

/-- The `.qrseat-data` directory: file name to contents. -/
def Store := String → Option FileContent

/-- Writing one file (`fs.writeFile`). -/
def Store.set (st : Store) (k : String) (v : FileContent) : Store :=
  fun k' => if k' = k then some v else st k'

/-- File name that holds session `s`'s message queue. -/
def dataKey (s : String) : String := s ++ ".json"

/-- File name that holds session `s`'s activity gate. -/
def statusKey (s : String) : String := s ++ "-status.json"

/-- Field-by-field defaulting applied to each stored message in
`loadSessionData`: `String(message.id ?? '')`, `Number(message.ver ?? 0)`,
`Number(message.timestamp ?? Date.now())`, and `expiresAt` only if it is a
number. -/
def normalizeMessage (now : Int) (m : RawMessage) : SessionMessage :=
  { id := m.id.getD ""
    ver := m.ver.getD 0
    timestamp := m.timestamp.getD now
    expiresAt := m.expiresAt }

/-- Pure core of `loadSessionData` in `send/route.ts`: parse failure or a
missing/non-array `messages` field yields the zero record (`lastVer = 0`,
empty queue, discarding any stored `lastVer`); otherwise normalize the
messages, purge expired ones, then default `lastVer` via `ensureLastVersion`.
The Bool reports whether the purge removed anything (the caller persists only
in that case). -/
def loadFromRaw (s : String) (raw : Option RawSessionData) (now : Int) :
    SessionData × Bool :=
  match raw with
  | none => ({ session := s, lastVer := some 0, messages := [] }, false)
  | some r =>
    match r.messages with
    | none => ({ session := s, lastVer := some 0, messages := [] }, false)
    | some msgs =>
      let d0 : SessionData :=
        { session := s, lastVer := r.lastVer
          messages := msgs.map (normalizeMessage now) }
      let pr := purgeExpiredMessages d0 now
      (ensureLastVersion pr.1, pr.2)

/-- Pure core of `loadSessionData` in the next route: identical to the send
route's loader except that `ensureLastVersion` is not applied to the returned
record (the next route defaults `lastVer` only inside `saveSessionData`). -/
def nextLoadFromRaw (s : String) (raw : Option RawSessionData) (now : Int) :
    SessionData × Bool :=
  match raw with
  | none => ({ session := s, lastVer := some 0, messages := [] }, false)
  | some r =>
    match r.messages with
    | none => ({ session := s, lastVer := some 0, messages := [] }, false)
    | some msgs =>
      let d0 : SessionData :=
        { session := s, lastVer := r.lastVer
          messages := msgs.map (normalizeMessage now) }
      purgeExpiredMessages d0 now

/-- Serialization performed by `JSON.stringify` in `saveSessionData`: every
in-memory field is written out (an `expiresAt` that is `undefined` is simply
omitted, which `Option` already captures). -/
def toRawMessage (m : SessionMessage) : RawMessage :=
  { id := some m.id, ver := some m.ver, timestamp := some m.timestamp
    expiresAt := m.expiresAt }

/-- Serialization of a whole session record. -/
def toRaw (d : SessionData) : RawSessionData :=
  { lastVer := d.lastVer, messages := some (d.messages.map toRawMessage) }

/-- Reading and JSON-parsing the data file of session `s`: any content that is
not a session-data shaped object makes `loadSessionData` produce the zero
record, exactly as `none` does, so both collapse to `none` here. -/
def readRawData (st : Store) (s : String) : Option RawSessionData :=
  match st (dataKey s) with
  | some (.dataJson raw) => some raw
  | _ => none

/-- `saveSessionData` from `send/route.ts`: ensure `lastVer` is a number, then
write the serialized record to the session's data file. -/
def saveSessionData (st : Store) (d : SessionData) : Store :=
  Store.set st (dataKey d.session) (.dataJson (toRaw (ensureLastVersion d)))

/-- Store-level `loadSessionData` of `send/route.ts`: load, and persist the
purged record iff the purge removed something. -/
def loadSessionData (st : Store) (s : String) (now : Int) :
    SessionData × Store :=
  let lr := loadFromRaw s (readRawData st s) now
  if lr.2 then (lr.1, saveSessionData st lr.1) else (lr.1, st)

/-- Gate read performed by `send`'s `loadSessionStatus` followed by
`if (!sessionStatus.active)`: a missing or unparsable status file, or one
without an `active` field, reads as inactive; a present `active` value is
interpreted by JS truthiness. -/
def loadSessionStatusActive (st : Store) (s : String) : Bool :=
  match st (statusKey s) with
  | some (.statusJson raw) => (raw.active.map JsVal.truthy).getD false
  | _ => false

/-- Response produced by the `send` POST handler (the `time` field, always
`Date.now()`, carries no information the claims touch and is omitted). -/
structure SendResponse where
  ok : Bool
  status : Nat
  ver : Option Int
  duplicate : Bool
  sessionActive : Option Bool
deriving DecidableEq, Repr

/-- The `send` POST handler from `send/route.ts`: field validation (JS empty
strings are falsy), gate check, duplicate check against the loaded and purged
record, then enqueue with version `lastVer + 1` and expiry `now + ttl`. -/
def sendStore (st : Store) (s i : String) (rawTtl : Option Int) (now : Int) :
    SendResponse × Store :=
  if s = "" ∨ i = "" then
    ({ ok := false, status := 400, ver := none, duplicate := false
       sessionActive := none }, st)
  else
    let ttl := sanitizeTTL rawTtl
    if loadSessionStatusActive st s = false then
      ({ ok := false, status := 403, ver := none, duplicate := false
         sessionActive := some false }, st)
    else
      let ld := loadSessionData st s now
      let d := ld.1
      let st1 := ld.2
      match findExistingMessage d i now with
      | some v =>
        ({ ok := true, status := 200, ver := some v, duplicate := true
           sessionActive := none }, st1)
      | none =>
        let newVer := d.lastVer.getD (Int.ofNat d.messages.length) + 1
        let d1 : SessionData :=
          { d with lastVer := some newVer
                   messages := d.messages ++
                     [{ id := i, ver := newVer, timestamp := now
                        expiresAt := some (now + ttl) }] }
        ({ ok := true, status := 200, ver := some newVer, duplicate := false
           sessionActive := none }, saveSessionData st1 d1)

/-- Response produced by the next route's GET handler (`time` omitted as for
`SendResponse`). -/
structure NextResponse where
  ok : Bool
  status : Nat
  id : Option String
deriving DecidableEq, Repr

/-- The next route's GET handler: load (purging expired messages and
persisting iff the purge removed something; that save defaults `lastVer` on
the in-memory record too, since `saveSessionData` mutates its argument), then
consume the head message if present and persist the shortened queue.  The
gate is never consulted. -/
def nextStore (st : Store) (s : String) (now : Int) : NextResponse × Store :=
  if s = "" then ({ ok := false, status := 400, id := none }, st)
  else
    let lr := nextLoadFromRaw s (readRawData st s) now
    let d := if lr.2 then ensureLastVersion lr.1 else lr.1
    let st1 := if lr.2 then saveSessionData st d else st
    match d.messages with
    | [] => ({ ok := true, status := 200, id := none }, st1)
    | m :: rest =>
      let d1 := { d with messages := rest }
      ({ ok := true, status := 200, id := some m.id }, saveSessionData st1 d1)

/-- `saveSessionStatus` from `status/route.ts` as invoked by the status POST
handler: persist exactly the session key, the (validated boolean) active
flag and `lastUpdate = Date.now()` to the session's status file. -/
def saveSessionStatus (st : Store) (s : String) (active : Bool) (now : Int) :
    Store :=
  Store.set st (statusKey s)
    (.statusJson { session := some s, active := some (.vBool active)
                   lastUpdate := some now })

/-- Viewer record from `viewers/route.ts`. -/
structure Viewer where
  deviceId : String
  operatorName : String
  operatorId : Int
  timestamp : Int
deriving DecidableEq, Repr

/-- Staleness predicate of the viewer routes: an entry is fresh iff it is
less than 10 seconds old. -/
def viewerFresh (now : Int) (v : Viewer) : Bool :=
  decide (now - v.timestamp < 10000)

/-- Viewers GET: entries for one operator, stale entries excluded. -/
def getViewers (vs : List Viewer) (opId : Int) (now : Int) : List Viewer :=
  vs.filter (fun v => v.operatorId == opId && viewerFresh now v)

/-- Viewers POST: prune stale entries, drop any entry for the same device,
then append the fresh entry. -/
def registerViewer (vs : List Viewer) (dId name : String) (opId : Int)
    (now : Int) : List Viewer :=
  let pruned := ((vs.filter (viewerFresh now)).filter
    (fun v => v.deviceId != dId))
  pruned ++ [{ deviceId := dId, operatorName := name, operatorId := opId
               timestamp := now }]

/-- One request against session `s`, for reasoning about operation traces. -/
inductive QOp where
  | qsend : String → Option Int → Int → QOp
  | qnext : Int → QOp
  | qstatus : Bool → Int → QOp

/-- Store effect of one request against session `s`. -/
def applyOp (s : String) (st : Store) : QOp → Store
  | .qsend i ttl now => (sendStore st s i ttl now).2
  | .qnext now => (nextStore st s now).2
  | .qstatus b now => saveSessionStatus st s b now

/-- Store effect of a request sequence against session `s`. -/
def applyOps (s : String) (ops : List QOp) (st : Store) : Store :=
  ops.foldl (applyOp s) st

/-- Versions of the messages in a raw stored record. -/
def rawVers (r : Option RawSessionData) : List Int :=
  match r with
  | some rr =>
    match rr.messages with
    | some msgs => msgs.map (fun m => m.ver.getD 0)
    | none => []
  | none => []

/-- The logical clock a raw stored record denotes (what `loadSessionData`
yields as `lastVer` for a record in the system-written shape). -/
def rawLast (r : Option RawSessionData) : Int :=
  match r with
  | some rr =>
    match rr.messages with
    | some _ => rr.lastVer.getD 0
    | none => 0
  | none => 0

/-- Well-formedness of a stored record, as maintained by every write the
routes perform: if a `messages` array is present then `lastVer` is a number,
bounds every message version, and the versions are pairwise distinct.  Records
that load as the zero record are trivially well-formed. -/
def WFr : Option RawSessionData → Prop
  | some rr =>
    match rr.messages with
    | some msgs =>
      ∃ v, rr.lastVer = some v ∧ (∀ m ∈ msgs, m.ver.getD 0 ≤ v) ∧
        (msgs.map (fun m => m.ver.getD 0)).Nodup
    | none => True
  | none => True

/-- Empty data directory. -/
def emptyStore : Store := fun _ => none

/-- Store in which session `"s"`'s gate has been switched on at time 0. -/
def exActiveStore : Store := saveSessionStatus emptyStore "s" true 0

/-- Store after one accepted `send` of id `"X"` at time 5 (default TTL). -/
def exStore1 : Store := (sendStore exActiveStore "s" "X" none 5).2

/-- Store after accepted sends of `"X"` (time 5) and `"Y"` (time 6). -/
def exStore2 : Store := (sendStore exStore1 "s" "Y" none 6).2

/-- Legacy stored record without `lastVer`: version 9 expires at 10, version 2
expires at 100. -/
def rawLegacy : RawSessionData :=
  { lastVer := none
    messages :=
      some [ { id := some "a", ver := some 9, timestamp := some 0
               expiresAt := some 10 },
             { id := some "b", ver := some 2, timestamp := some 0
               expiresAt := some 100 } ] }

/-- Stored record with a `messages` array, a live version-5 message, and no
`lastVer` field. -/
def rawNoLast : RawSessionData :=
  { lastVer := none
    messages :=
      some [ { id := some "a", ver := some 5, timestamp := some 0
               expiresAt := some 100 } ] }

/-- Store whose status file for `"s"` carries the (truthy, non-boolean)
string value "false" in its `active` field. -/
def exMalformedStatusStore : Store :=
  Store.set emptyStore (statusKey "s")
    (.statusJson { session := some "s", active := some (.vStr "false")
                   lastUpdate := some 0 })

/-- Store holding the legacy record `rawLegacy` for session `"s"`. -/
def exLegacyStore : Store :=
  Store.set emptyStore (dataKey "s") (.dataJson rawLegacy)

/-- Well-formedness of an in-memory session record as produced and maintained
by the routes: `lastVer` is a number bounding every message version, and the
message versions are pairwise distinct. -/
def WFd (d : SessionData) : Prop :=
  ∃ v, d.lastVer = some v ∧ (∀ m ∈ d.messages, m.ver ≤ v) ∧
    (d.messages.map (fun m => m.ver)).Nodup

theorem Store.set_self (st : Store) (k : String) (v : FileContent) :
    Store.set st k v k = some v := by
  simp [Store.set]

theorem Store.set_ne (st : Store) (k k' : String) (v : FileContent)
    (h : k' ≠ k) : Store.set st k v k' = st k' := by
  simp [Store.set, h]

theorem dataKey_ne_statusKey (s : String) : dataKey s ≠ statusKey s := by
  intro h
  have h2 := congrArg String.length h
  rw [dataKey, statusKey, String.length_append, String.length_append] at h2
  have h3 : (".json".length : Nat) = "-status.json".length := by omega
  exact absurd h3 (by decide)

theorem purge_fst_session (d : SessionData) (now : Int) :
    (purgeExpiredMessages d now).1.session = d.session := rfl

theorem purge_fst_lastVer (d : SessionData) (now : Int) :
    (purgeExpiredMessages d now).1.lastVer = d.lastVer := rfl

theorem purge_fst_messages (d : SessionData) (now : Int) :
    (purgeExpiredMessages d now).1.messages = d.messages.filter (isLive now) :=
  rfl

theorem ensureLastVersion_session (d : SessionData) :
    (ensureLastVersion d).session = d.session := by
  unfold ensureLastVersion
  cases d.lastVer <;> rfl

theorem ensureLastVersion_messages (d : SessionData) :
    (ensureLastVersion d).messages = d.messages := by
  unfold ensureLastVersion
  cases d.lastVer <;> rfl

theorem ensureLastVersion_of_some (d : SessionData) (v : Int)
    (h : d.lastVer = some v) : ensureLastVersion d = d := by
  unfold ensureLastVersion
  rw [h]

theorem ensureLastVersion_lastVer_isSome (d : SessionData) :
    ∃ v, (ensureLastVersion d).lastVer = some v := by
  unfold ensureLastVersion
  cases h : d.lastVer with
  | none => exact ⟨highestVersion d.messages, rfl⟩
  | some v => exact ⟨v, h⟩

theorem loadFromRaw_session (s : String) (raw : Option RawSessionData)
    (now : Int) : (loadFromRaw s raw now).1.session = s := by
  unfold loadFromRaw
  obtain - | ⟨lv, - | msgs⟩ := raw
  · rfl
  · rfl
  · simp [ensureLastVersion_session, purge_fst_session]

theorem nextLoadFromRaw_session (s : String) (raw : Option RawSessionData)
    (now : Int) : (nextLoadFromRaw s raw now).1.session = s := by
  unfold nextLoadFromRaw
  obtain - | ⟨lv, - | msgs⟩ := raw
  · rfl
  · rfl
  · simp [purge_fst_session]

theorem loadFromRaw_lastVer_isSome (s : String) (raw : Option RawSessionData)
    (now : Int) : ∃ v, (loadFromRaw s raw now).1.lastVer = some v := by
  unfold loadFromRaw
  obtain - | ⟨lv, - | msgs⟩ := raw
  · exact ⟨0, rfl⟩
  · exact ⟨0, rfl⟩
  · simpa using ensureLastVersion_lastVer_isSome _

theorem saveSessionData_ne (st : Store) (d : SessionData) (k : String)
    (h : k ≠ dataKey d.session) : saveSessionData st d k = st k := by
  simp [saveSessionData, Store.set, h]

theorem loadSessionData_frame (st : Store) (s : String) (now : Int)
    (k : String) (hk : k ≠ dataKey s) : (loadSessionData st s now).2 k = st k := by
  unfold loadSessionData
  by_cases hr : (loadFromRaw s (readRawData st s) now).2
  · simp only [hr, if_true]
    rw [saveSessionData_ne]
    rw [loadFromRaw_session]
    exact hk
  · simp [hr]

theorem loadSessionData_fst (st : Store) (s : String) (now : Int) :
    (loadSessionData st s now).1 = (loadFromRaw s (readRawData st s) now).1 := by
  unfold loadSessionData
  by_cases hr : (loadFromRaw s (readRawData st s) now).2 <;> simp [hr]

theorem sendStore_frame (st : Store) (s i : String) (ttl : Option Int)
    (now : Int) (k : String) (hk : k ≠ dataKey s) :
    (sendStore st s i ttl now).2 k = st k := by
  have hds : (loadSessionData st s now).1.session = s := by
    rw [loadSessionData_fst, loadFromRaw_session]
  unfold sendStore
  by_cases hv : s = "" ∨ i = ""
  · rw [if_pos hv]
  · rw [if_neg hv]
    dsimp only
    by_cases hg : loadSessionStatusActive st s = false
    · rw [if_pos hg]
    · rw [if_neg hg]
      cases hf : findExistingMessage (loadSessionData st s now).1 i now with
      | some v =>
        simp only [hf]
        exact loadSessionData_frame st s now k hk
      | none =>
        simp only [hf]
        rw [saveSessionData_ne]
        · exact loadSessionData_frame st s now k hk
        · dsimp only
          rw [hds]
          exact hk

theorem nextStore_frame (st : Store) (s : String) (now : Int) (k : String)
    (hk : k ≠ dataKey s) : (nextStore st s now).2 k = st k := by
  have hsess : (nextLoadFromRaw s (readRawData st s) now).1.session = s :=
    nextLoadFromRaw_session s _ now
  unfold nextStore
  by_cases hv : s = ""
  · rw [if_pos hv]
  · rw [if_neg hv]
    dsimp only
    set lr := nextLoadFromRaw s (readRawData st s) now with hlr
    set d := if lr.2 then ensureLastVersion lr.1 else lr.1 with hd
    have hdsess : d.session = s := by
      rw [hd]
      by_cases h2 : lr.2 <;> simp [h2, ensureLastVersion_session, hsess]
    set st1 := if lr.2 then saveSessionData st d else st with hst1
    have hst1k : st1 k = st k := by
      rw [hst1]
      by_cases h2 : lr.2
      · rw [if_pos h2, saveSessionData_ne]
        rw [hdsess]
        exact hk
      · rw [if_neg h2]
    cases hm : d.messages with
    | nil => simpa [hm] using hst1k
    | cons m rest =>
      simp only [hm]
      rw [saveSessionData_ne]
      · exact hst1k
      · dsimp only
        rw [hdsess]
        exact hk

theorem saveSessionStatus_ne (st : Store) (s : String) (b : Bool) (now : Int)
    (k : String) (h : k ≠ statusKey s) : saveSessionStatus st s b now k = st k := by
  simp [saveSessionStatus, Store.set, h]

theorem saveSessionStatus_self (st : Store) (s : String) (b : Bool) (now : Int) :
    saveSessionStatus st s b now (statusKey s) =
      some (.statusJson { session := some s, active := some (.vBool b)
                          lastUpdate := some now }) := by
  simp [saveSessionStatus, Store.set]

theorem readRawData_saveSessionStatus (st : Store) (s : String) (b : Bool)
    (now : Int) : readRawData (saveSessionStatus st s b now) s = readRawData st s := by
  unfold readRawData
  rw [saveSessionStatus_ne st s b now (dataKey s) (dataKey_ne_statusKey s)]

theorem readRawData_saveSessionData (st : Store) (d : SessionData) (s : String)
    (h : d.session = s) :
    readRawData (saveSessionData st d) s = some (toRaw (ensureLastVersion d)) := by
  simp [saveSessionData, readRawData, h, Store.set_self]

theorem mem_purge_iff (d : SessionData) (now : Int) (m : SessionMessage) :
    m ∈ (purgeExpiredMessages d now).1.messages ↔
      m ∈ d.messages ∧ messageExpiresAt m > now := by
  rw [purge_fst_messages]
  simp [List.mem_filter, isLive]

theorem purge_removed_false_iff (d : SessionData) (now : Int) :
    (purgeExpiredMessages d now).2 = false ↔
      ∀ m ∈ d.messages, messageExpiresAt m > now := by
  unfold purgeExpiredMessages
  simp only [decide_eq_false_iff_not, ne_eq, not_not]
  rw [List.filter_length_eq_length]
  simp [isLive]

theorem normalize_toRawMessage (now : Int) (m : SessionMessage) :
    normalizeMessage now (toRawMessage m) = m := rfl

theorem purge_of_all_live (d : SessionData) (now : Int)
    (h : ∀ m ∈ d.messages, messageExpiresAt m > now) :
    purgeExpiredMessages d now = (d, false) := by
  unfold purgeExpiredMessages
  have hf : d.messages.filter (isLive now) = d.messages := by
    rw [List.filter_eq_self]
    intro m hm
    simp [isLive, h m hm]
  simp [hf]

theorem loadFromRaw_toRaw (s : String) (d : SessionData) (now : Int)
    (hlv : d.lastVer.isSome)
    (hlive : ∀ m ∈ d.messages, messageExpiresAt m > now) :
    loadFromRaw s (some (toRaw d)) now =
      ({ session := s, lastVer := d.lastVer, messages := d.messages }, false) := by
  obtain ⟨v, hv⟩ := Option.isSome_iff_exists.mp hlv
  unfold loadFromRaw toRaw
  simp only [List.map_map]
  have hmaps : d.messages.map (normalizeMessage now ∘ toRawMessage) = d.messages := by
    have : normalizeMessage now ∘ toRawMessage = id := by
      funext m
      exact normalize_toRawMessage now m
    rw [this, List.map_id]
  rw [hmaps]
  have hp := purge_of_all_live
    { session := s, lastVer := d.lastVer, messages := d.messages } now (by simpa using hlive)
  rw [hp]
  rw [ensureLastVersion_of_some _ v]
  exact hv

theorem nextLoadFromRaw_toRaw (s : String) (d : SessionData) (now : Int)
    (hlive : ∀ m ∈ d.messages, messageExpiresAt m > now) :
    nextLoadFromRaw s (some (toRaw d)) now =
      ({ session := s, lastVer := d.lastVer, messages := d.messages }, false) := by
  unfold nextLoadFromRaw toRaw
  simp only [List.map_map]
  have hmaps : d.messages.map (normalizeMessage now ∘ toRawMessage) = d.messages := by
    have : normalizeMessage now ∘ toRawMessage = id := by
      funext m
      exact normalize_toRawMessage now m
    rw [this, List.map_id]
  rw [hmaps]
  exact purge_of_all_live _ now (by simpa using hlive)

theorem rawVers_toRaw (d : SessionData) :
    rawVers (some (toRaw d)) = d.messages.map (fun m => m.ver) := by
  show (d.messages.map toRawMessage).map (fun m => m.ver.getD 0) =
    d.messages.map (fun m => m.ver)
  rw [List.map_map]
  rfl

theorem rawLast_toRaw (d : SessionData) :
    rawLast (some (toRaw d)) = d.lastVer.getD 0 := rfl

theorem WFr_toRaw (d : SessionData) (h : WFd d) : WFr (some (toRaw d)) := by
  obtain ⟨v, hv, hbound, hnodup⟩ := h
  show ∃ w, (toRaw d).lastVer = some w ∧ _ ∧ _
  refine ⟨v, hv, ?_, ?_⟩
  · intro m hm
    rw [List.mem_map] at hm
    obtain ⟨m0, hm0, rfl⟩ := hm
    simpa [toRawMessage] using hbound m0 hm0
  · have : ((d.messages.map toRawMessage).map (fun m => m.ver.getD 0)) =
        d.messages.map (fun m => m.ver) := by
      rw [List.map_map]
      rfl
    rw [this]
    exact hnodup

theorem loadFromRaw_WF (s : String) (raw : Option RawSessionData) (now : Int)
    (h : WFr raw) :
    (loadFromRaw s raw now).1.lastVer = some (rawLast raw) ∧
    (∀ m ∈ (loadFromRaw s raw now).1.messages,
      m.ver ≤ rawLast raw ∧ m.ver ∈ rawVers raw) ∧
    ((loadFromRaw s raw now).1.messages.map (fun m => m.ver)).Nodup := by
  obtain - | ⟨lv, - | msgs⟩ := raw
  · exact ⟨rfl, by simp [loadFromRaw], by simp [loadFromRaw]⟩
  · exact ⟨rfl, by simp [loadFromRaw], by simp [loadFromRaw]⟩
  · obtain ⟨v, hv, hbound, hnodup⟩ := h
    simp only at hv
    unfold loadFromRaw
    dsimp only
    have hlv : (purgeExpiredMessages
        { session := s, lastVer := lv,
          messages := msgs.map (normalizeMessage now) } now).1.lastVer = lv := by
      rw [purge_fst_lastVer]
    have hmap : ((msgs.map (normalizeMessage now)).map (fun m => m.ver)) =
        msgs.map (fun m => m.ver.getD 0) := by
      rw [List.map_map]
      rfl
    refine ⟨?_, ?_, ?_⟩
    · rw [ensureLastVersion_of_some _ v, purge_fst_lastVer]
      · show lv = some (Option.getD lv 0)
        rw [hv]
        rfl
      · rw [purge_fst_lastVer]
        exact hv
    · intro m hm
      rw [ensureLastVersion_messages, purge_fst_messages] at hm
      have hm2 := List.mem_of_mem_filter hm
      rw [List.mem_map] at hm2
      obtain ⟨m0, hm0, rfl⟩ := hm2
      constructor
      · show (normalizeMessage now m0).ver ≤ Option.getD lv 0
        rw [hv]
        exact hbound m0 hm0
      · show (normalizeMessage now m0).ver ∈ rawVers (some ⟨lv, some msgs⟩)
        show (normalizeMessage now m0).ver ∈ msgs.map (fun m => m.ver.getD 0)
        exact List.mem_map.mpr ⟨m0, hm0, rfl⟩
    · rw [ensureLastVersion_messages, purge_fst_messages]
      have hsub : List.Sublist
          (((msgs.map (normalizeMessage now)).filter (isLive now)).map
            (fun m => m.ver))
          ((msgs.map (normalizeMessage now)).map (fun m => m.ver)) :=
        (List.filter_sublist _).map _
      rw [hmap] at hsub
      exact hnodup.sublist hsub

theorem nextLoadFromRaw_WF (s : String) (raw : Option RawSessionData) (now : Int)
    (h : WFr raw) :
    (nextLoadFromRaw s raw now).1.lastVer = some (rawLast raw) ∧
    (∀ m ∈ (nextLoadFromRaw s raw now).1.messages,
      m.ver ≤ rawLast raw ∧ m.ver ∈ rawVers raw) ∧
    ((nextLoadFromRaw s raw now).1.messages.map (fun m => m.ver)).Nodup := by
  obtain - | ⟨lv, - | msgs⟩ := raw
  · exact ⟨rfl, by simp [nextLoadFromRaw], by simp [nextLoadFromRaw]⟩
  · exact ⟨rfl, by simp [nextLoadFromRaw], by simp [nextLoadFromRaw]⟩
  · obtain ⟨v, hv, hbound, hnodup⟩ := h
    simp only at hv
    unfold nextLoadFromRaw
    dsimp only
    have hmap : ((msgs.map (normalizeMessage now)).map (fun m => m.ver)) =
        msgs.map (fun m => m.ver.getD 0) := by
      rw [List.map_map]
      rfl
    refine ⟨?_, ?_, ?_⟩
    · rw [purge_fst_lastVer]
      show lv = some (Option.getD lv 0)
      rw [hv]
      rfl
    · intro m hm
      rw [purge_fst_messages] at hm
      have hm2 := List.mem_of_mem_filter hm
      rw [List.mem_map] at hm2
      obtain ⟨m0, hm0, rfl⟩ := hm2
      constructor
      · show (normalizeMessage now m0).ver ≤ Option.getD lv 0
        rw [hv]
        exact hbound m0 hm0
      · show (normalizeMessage now m0).ver ∈ msgs.map (fun m => m.ver.getD 0)
        exact List.mem_map.mpr ⟨m0, hm0, rfl⟩
    · rw [purge_fst_messages]
      have hsub : List.Sublist
          (((msgs.map (normalizeMessage now)).filter (isLive now)).map
            (fun m => m.ver))
          ((msgs.map (normalizeMessage now)).map (fun m => m.ver)) :=
        (List.filter_sublist _).map _
      rw [hmap] at hsub
      exact hnodup.sublist hsub

theorem record_goal_of_toRaw (r0 : Option RawSessionData) (e : SessionData)
    (w : Int) (hw : e.lastVer = some w) (hL : rawLast r0 ≤ w)
    (hbound : ∀ m ∈ e.messages, m.ver ≤ w)
    (hnodup : (e.messages.map (fun m => m.ver)).Nodup)
    (hmem : ∀ m ∈ e.messages, m.ver ∈ rawVers r0 ∨ rawLast r0 < m.ver) :
    WFr (some (toRaw e)) ∧ rawLast r0 ≤ rawLast (some (toRaw e)) ∧
    (∀ V, V ≤ rawLast r0 → V ∉ rawVers r0 → V ∉ rawVers (some (toRaw e))) := by
  refine ⟨WFr_toRaw e ⟨w, hw, hbound, hnodup⟩, ?_, ?_⟩
  · rw [rawLast_toRaw, hw]
    exact hL
  · intro V hVL hVmem hVin
    rw [rawVers_toRaw, List.mem_map] at hVin
    obtain ⟨m, hm, rfl⟩ := hVin
    rcases hmem m hm with h | h
    · exact hVmem h
    · exact absurd hVL (not_le.mpr h)

theorem loadSessionData_record (st : Store) (s : String) (now : Int) :
    readRawData (loadSessionData st s now).2 s = readRawData st s ∨
    readRawData (loadSessionData st s now).2 s =
      some (toRaw (loadFromRaw s (readRawData st s) now).1) := by
  unfold loadSessionData
  by_cases hr : (loadFromRaw s (readRawData st s) now).2
  · right
    simp only [hr, if_true]
    rw [readRawData_saveSessionData _ _ _ (loadFromRaw_session s _ now)]
    obtain ⟨v, hv⟩ := loadFromRaw_lastVer_isSome s (readRawData st s) now
    rw [ensureLastVersion_of_some _ v hv]
  · left
    simp [hr]

theorem sendStore_eq (st : Store) (s i : String) (ttl : Option Int) (now : Int)
    (hv : ¬(s = "" ∨ i = "")) (hg : ¬(loadSessionStatusActive st s = false)) :
    sendStore st s i ttl now =
      match findExistingMessage (loadSessionData st s now).1 i now with
      | some v =>
        ({ ok := true, status := 200, ver := some v, duplicate := true
           sessionActive := none }, (loadSessionData st s now).2)
      | none =>
        ({ ok := true, status := 200
           ver := some ((loadSessionData st s now).1.lastVer.getD
             (Int.ofNat (loadSessionData st s now).1.messages.length) + 1)
           duplicate := false, sessionActive := none },
          saveSessionData (loadSessionData st s now).2
            { session := (loadSessionData st s now).1.session
              lastVer := some ((loadSessionData st s now).1.lastVer.getD
                (Int.ofNat (loadSessionData st s now).1.messages.length) + 1)
              messages := (loadSessionData st s now).1.messages ++
                [{ id := i
                   ver := (loadSessionData st s now).1.lastVer.getD
                     (Int.ofNat (loadSessionData st s now).1.messages.length) + 1
                   timestamp := now
                   expiresAt := some (now + sanitizeTTL ttl) }] }) := by
  unfold sendStore
  rw [if_neg hv]
  dsimp only
  rw [if_neg hg]

theorem send_record_inv (st : Store) (s i : String) (ttl : Option Int)
    (now : Int) (hW : WFr (readRawData st s)) :
    WFr (readRawData (sendStore st s i ttl now).2 s) ∧
    rawLast (readRawData st s) ≤
      rawLast (readRawData (sendStore st s i ttl now).2 s) ∧
    (∀ V, V ≤ rawLast (readRawData st s) → V ∉ rawVers (readRawData st s) →
      V ∉ rawVers (readRawData (sendStore st s i ttl now).2 s)) := by
  by_cases hv : s = "" ∨ i = ""
  · have hst : (sendStore st s i ttl now).2 = st := by
      unfold sendStore
      rw [if_pos hv]
    rw [hst]
    exact ⟨hW, le_refl _, fun V _ h => h⟩
  · by_cases hg : loadSessionStatusActive st s = false
    · have hst : (sendStore st s i ttl now).2 = st := by
        unfold sendStore
        rw [if_neg hv]
        dsimp only
        rw [if_pos hg]
      rw [hst]
      exact ⟨hW, le_refl _, fun V _ h => h⟩
    · rw [sendStore_eq st s i ttl now hv hg]
      have hld := loadFromRaw_WF s (readRawData st s) now hW
      have hfst : (loadSessionData st s now).1 =
          (loadFromRaw s (readRawData st s) now).1 := loadSessionData_fst st s now
      cases hf : findExistingMessage (loadSessionData st s now).1 i now with
      | some v =>
        simp only [hf]
        rcases loadSessionData_record st s now with h | h
        · rw [h]
          exact ⟨hW, le_refl _, fun V _ hh => hh⟩
        · rw [h]
          exact record_goal_of_toRaw (readRawData st s) _ (rawLast (readRawData st s))
            hld.1 (le_refl _) (fun m hm => (hld.2.1 m hm).1) hld.2.2
            (fun m hm => Or.inl (hld.2.1 m hm).2)
      | none =>
        simp only [hf, hfst]
        have hgetD : (loadFromRaw s (readRawData st s) now).1.lastVer.getD
            (Int.ofNat (loadFromRaw s (readRawData st s) now).1.messages.length) =
            rawLast (readRawData st s) := by
          rw [hld.1]
          rfl
        rw [hgetD]
        have hsess : ((loadFromRaw s (readRawData st s) now).1).session = s :=
          loadFromRaw_session s _ now
        rw [readRawData_saveSessionData _ _ _ (by exact hsess)]
        rw [ensureLastVersion_of_some _ (rawLast (readRawData st s) + 1) (by rfl)]
        refine record_goal_of_toRaw (readRawData st s) _
          (rawLast (readRawData st s) + 1) rfl (by omega) ?_ ?_ ?_
        · intro m hm
          rcases List.mem_append.mp hm with h | h
          · have := (hld.2.1 m h).1
            omega
          · rw [List.mem_singleton] at h
            subst h
            exact le_refl _
        · rw [List.map_append]
          have hnotin : rawLast (readRawData st s) + 1 ∉
              ((loadFromRaw s (readRawData st s) now).1.messages.map
                (fun m => m.ver)) := by
            intro hmem
            rw [List.mem_map] at hmem
            obtain ⟨m, hm, hver⟩ := hmem
            have := (hld.2.1 m hm).1
            omega
          simp [List.nodup_append, hld.2.2, hnotin]
        · intro m hm
          rcases List.mem_append.mp hm with h | h
          · exact Or.inl (hld.2.1 m h).2
          · rw [List.mem_singleton] at h
            subst h
            right
            show rawLast (readRawData st s) < rawLast (readRawData st s) + 1
            omega

theorem next_record_inv (st : Store) (s : String) (now : Int)
    (hW : WFr (readRawData st s)) :
    WFr (readRawData (nextStore st s now).2 s) ∧
    rawLast (readRawData st s) ≤
      rawLast (readRawData (nextStore st s now).2 s) ∧
    (∀ V, V ≤ rawLast (readRawData st s) → V ∉ rawVers (readRawData st s) →
      V ∉ rawVers (readRawData (nextStore st s now).2 s)) := by
  by_cases hv : s = ""
  · have hst : (nextStore st s now).2 = st := by
      unfold nextStore
      rw [if_pos hv]
    rw [hst]
    exact ⟨hW, le_refl _, fun V _ h => h⟩
  · obtain ⟨hlv, hbm, hnd⟩ := nextLoadFromRaw_WF s (readRawData st s) now hW
    have hsess : (nextLoadFromRaw s (readRawData st s) now).1.session = s :=
      nextLoadFromRaw_session s _ now
    unfold nextStore
    rw [if_neg hv]
    dsimp only
    have hdeq : (if (nextLoadFromRaw s (readRawData st s) now).2 then
        ensureLastVersion (nextLoadFromRaw s (readRawData st s) now).1
        else (nextLoadFromRaw s (readRawData st s) now).1) =
        (nextLoadFromRaw s (readRawData st s) now).1 := by
      by_cases h2 : (nextLoadFromRaw s (readRawData st s) now).2
      · rw [if_pos h2, ensureLastVersion_of_some _ _ hlv]
      · rw [if_neg h2]
    rw [hdeq]
    have hrec1 : readRawData (if (nextLoadFromRaw s (readRawData st s) now).2 then
        saveSessionData st (nextLoadFromRaw s (readRawData st s) now).1 else st) s =
          readRawData st s ∨
        readRawData (if (nextLoadFromRaw s (readRawData st s) now).2 then
        saveSessionData st (nextLoadFromRaw s (readRawData st s) now).1 else st) s =
          some (toRaw (nextLoadFromRaw s (readRawData st s) now).1) := by
      by_cases h2 : (nextLoadFromRaw s (readRawData st s) now).2
      · right
        rw [if_pos h2, readRawData_saveSessionData _ _ _ hsess,
          ensureLastVersion_of_some _ _ hlv]
      · left
        rw [if_neg h2]
    cases hm : (nextLoadFromRaw s (readRawData st s) now).1.messages with
    | nil =>
      simp only [hm]
      rcases hrec1 with h | h
      · rw [h]
        exact ⟨hW, le_refl _, fun V _ hh => hh⟩
      · rw [h]
        exact record_goal_of_toRaw (readRawData st s) _ (rawLast (readRawData st s))
          hlv (le_refl _) (fun m hm2 => (hbm m hm2).1) hnd
          (fun m hm2 => Or.inl (hbm m hm2).2)
    | cons m rest =>
      simp only [hm]
      have hsess2 : (SessionData.mk
          (nextLoadFromRaw s (readRawData st s) now).1.session
          (nextLoadFromRaw s (readRawData st s) now).1.lastVer rest).session = s :=
        hsess
      rw [readRawData_saveSessionData _ _ _ hsess2,
        ensureLastVersion_of_some (SessionData.mk
          (nextLoadFromRaw s (readRawData st s) now).1.session
          (nextLoadFromRaw s (readRawData st s) now).1.lastVer rest)
          (rawLast (readRawData st s)) hlv]
      refine record_goal_of_toRaw (readRawData st s) _
        (rawLast (readRawData st s)) hlv (le_refl _) ?_ ?_ ?_
      · intro m2 hm2
        have : m2 ∈ (nextLoadFromRaw s (readRawData st s) now).1.messages := by
          rw [hm]
          exact List.mem_cons_of_mem m hm2
        exact (hbm m2 this).1
      · rw [hm] at hnd
        rw [List.map_cons] at hnd
        exact hnd.of_cons
      · intro m2 hm2
        have : m2 ∈ (nextLoadFromRaw s (readRawData st s) now).1.messages := by
          rw [hm]
          exact List.mem_cons_of_mem m hm2
        exact Or.inl (hbm m2 this).2

theorem applyOp_record_inv (s : String) (st : Store) (op : QOp)
    (hW : WFr (readRawData st s)) :
    WFr (readRawData (applyOp s st op) s) ∧
    rawLast (readRawData st s) ≤ rawLast (readRawData (applyOp s st op) s) ∧
    (∀ V, V ≤ rawLast (readRawData st s) → V ∉ rawVers (readRawData st s) →
      V ∉ rawVers (readRawData (applyOp s st op) s)) := by
  cases op with
  | qsend i ttl now => exact send_record_inv st s i ttl now hW
  | qnext now => exact next_record_inv st s now hW
  | qstatus b now =>
    have h1 : readRawData (applyOp s st (QOp.qstatus b now)) s = readRawData st s :=
      readRawData_saveSessionStatus st s b now
    rw [h1]
    exact ⟨hW, le_refl _, fun V _ h => h⟩

theorem applyOps_record_inv (s : String) (ops : List QOp) (st : Store)
    (hW : WFr (readRawData st s)) :
    WFr (readRawData (applyOps s ops st) s) ∧
    rawLast (readRawData st s) ≤ rawLast (readRawData (applyOps s ops st) s) ∧
    (∀ V, V ≤ rawLast (readRawData st s) → V ∉ rawVers (readRawData st s) →
      V ∉ rawVers (readRawData (applyOps s ops st) s)) := by
  induction ops generalizing st with
  | nil => exact ⟨hW, le_refl _, fun V _ h => h⟩
  | cons op rest ih =>
    obtain ⟨hW1, hle1, havoid1⟩ := applyOp_record_inv s st op hW
    obtain ⟨hW2, hle2, havoid2⟩ := ih (applyOp s st op) hW1
    refine ⟨hW2, le_trans hle1 hle2, ?_⟩
    intro V hVle hVmem
    exact havoid2 V (le_trans hVle hle1) (havoid1 V hVle hVmem)

theorem loadFromRaw_live (s : String) (raw : Option RawSessionData) (now : Int) :
    ∀ m ∈ (loadFromRaw s raw now).1.messages, messageExpiresAt m > now := by
  obtain - | ⟨lv, - | msgs⟩ := raw
  · intro m hm
    simp [loadFromRaw] at hm
  · intro m hm
    simp [loadFromRaw] at hm
  · intro m hm
    unfold loadFromRaw at hm
    rw [ensureLastVersion_messages, purge_fst_messages] at hm
    have := List.of_mem_filter hm
    simpa [isLive] using this

theorem nextLoadFromRaw_live (s : String) (raw : Option RawSessionData)
    (now : Int) :
    ∀ m ∈ (nextLoadFromRaw s raw now).1.messages, messageExpiresAt m > now := by
  obtain - | ⟨lv, - | msgs⟩ := raw
  · intro m hm
    simp [nextLoadFromRaw] at hm
  · intro m hm
    simp [nextLoadFromRaw] at hm
  · intro m hm
    unfold nextLoadFromRaw at hm
    rw [purge_fst_messages] at hm
    have := List.of_mem_filter hm
    simpa [isLive] using this

theorem foldl_max_init_le (l : List SessionMessage) (a : Int) :
    a ≤ l.foldl (fun acc m => if m.ver > acc then m.ver else acc) a := by
  induction l generalizing a with
  | nil => exact le_refl a
  | cons m rest ih =>
    refine le_trans ?_ (ih (if m.ver > a then m.ver else a))
    by_cases h : m.ver > a
    · rw [if_pos h]
      omega
    · rw [if_neg h]

theorem mem_le_foldl_max (l : List SessionMessage) (m : SessionMessage)
    (hm : m ∈ l) : ∀ a : Int,
    m.ver ≤ l.foldl (fun acc m2 => if m2.ver > acc then m2.ver else acc) a := by
  induction l with
  | nil => cases hm
  | cons m2 rest ih =>
    intro a
    rcases List.mem_cons.mp hm with h | h
    · subst h
      refine le_trans ?_ (foldl_max_init_le rest _)
      by_cases h2 : m.ver > a <;> simp [h2]
      omega
    · exact ih h _

theorem mem_le_highestVersion (l : List SessionMessage) (m : SessionMessage)
    (hm : m ∈ l) : m.ver ≤ highestVersion l :=
  mem_le_foldl_max l m hm 0

theorem nextStore_resp (st : Store) (s : String) (now : Int) (hv : ¬s = "") :
    (nextStore st s now).1 =
      match (nextLoadFromRaw s (readRawData st s) now).1.messages with
      | [] => { ok := true, status := 200, id := none }
      | m :: _ => { ok := true, status := 200, id := some m.id } := by
  unfold nextStore
  rw [if_neg hv]
  dsimp only
  have hmsg : (if (nextLoadFromRaw s (readRawData st s) now).2 then
      ensureLastVersion (nextLoadFromRaw s (readRawData st s) now).1
      else (nextLoadFromRaw s (readRawData st s) now).1).messages =
      (nextLoadFromRaw s (readRawData st s) now).1.messages := by
    by_cases h2 : (nextLoadFromRaw s (readRawData st s) now).2
    · rw [if_pos h2, ensureLastVersion_messages]
    · rw [if_neg h2]
  rw [hmsg]
  cases hmm : (nextLoadFromRaw s (readRawData st s) now).1.messages with
  | nil => rfl
  | cons m rest => rfl

theorem nextStore_snd_cons (st : Store) (s : String) (now : Int)
    (m : SessionMessage) (rest : List SessionMessage) (hv : ¬s = "")
    (w : Int) (hlv : (nextLoadFromRaw s (readRawData st s) now).1.lastVer = some w)
    (hm : (nextLoadFromRaw s (readRawData st s) now).1.messages = m :: rest) :
    (nextStore st s now).2 =
      saveSessionData
        (if (nextLoadFromRaw s (readRawData st s) now).2 then
          saveSessionData st (nextLoadFromRaw s (readRawData st s) now).1 else st)
        { (nextLoadFromRaw s (readRawData st s) now).1 with messages := rest } := by
  unfold nextStore
  rw [if_neg hv]
  dsimp only
  have hdeq : (if (nextLoadFromRaw s (readRawData st s) now).2 then
      ensureLastVersion (nextLoadFromRaw s (readRawData st s) now).1
      else (nextLoadFromRaw s (readRawData st s) now).1) =
      (nextLoadFromRaw s (readRawData st s) now).1 := by
    by_cases h2 : (nextLoadFromRaw s (readRawData st s) now).2
    · rw [if_pos h2, ensureLastVersion_of_some _ _ hlv]
    · rw [if_neg h2]
  rw [hdeq, hm]

theorem nextStore_delivers (st : Store) (s : String) (now : Int) (j : String)
    (hv : ¬s = "") (h : (nextStore st s now).1.id = some j) :
    ∃ m rest, (nextLoadFromRaw s (readRawData st s) now).1.messages = m :: rest ∧
      m.id = j := by
  rw [nextStore_resp st s now hv] at h
  cases hmm : (nextLoadFromRaw s (readRawData st s) now).1.messages with
  | nil =>
    rw [hmm] at h
    exact absurd h (by simp)
  | cons m rest =>
    rw [hmm] at h
    simp only [Option.some.injEq] at h
    exact ⟨m, rest, rfl, h⟩

theorem nextStore_noid_iff (st : Store) (s : String) (now : Int) (hv : ¬s = "") :
    (nextStore st s now).1.id = none ↔
      (nextLoadFromRaw s (readRawData st s) now).1.messages = [] := by
  rw [nextStore_resp st s now hv]
  cases hmm : (nextLoadFromRaw s (readRawData st s) now).1.messages with
  | nil => simp
  | cons m rest => simp

theorem nextLoad_empty_stable (s : String) (raw : Option RawSessionData)
    (t1 t2 : Int)
    (hemp : (nextLoadFromRaw s raw t1).1.messages = [])
    (hrm : (nextLoadFromRaw s raw t1).2 = false) :
    (nextLoadFromRaw s raw t2).1.messages = [] ∧
    (nextLoadFromRaw s raw t2).2 = false := by
  obtain - | ⟨lv, - | msgs⟩ := raw
  · exact ⟨rfl, rfl⟩
  · exact ⟨rfl, rfl⟩
  · have hz : msgs = [] := by
      unfold nextLoadFromRaw at hemp hrm
      rw [purge_fst_messages] at hemp
      unfold purgeExpiredMessages at hrm
      simp only [decide_eq_false_iff_not, ne_eq, not_not] at hrm
      dsimp only at hemp hrm
      rw [hemp] at hrm
      simp only [List.length_nil] at hrm
      have := congrArg List.length (List.length_eq_zero.mp hrm.symm)
      rw [List.length_map] at this
      exact List.length_eq_zero.mp (by simpa using this)
    subst hz
    unfold nextLoadFromRaw
    dsimp only
    unfold purgeExpiredMessages
    exact ⟨rfl, by simp⟩

theorem nextStore_of_empty (st : Store) (s : String) (now : Int) (hv : ¬s = "")
    (hemp : (nextLoadFromRaw s (readRawData st s) now).1.messages = []) :
    nextStore st s now = ({ ok := true, status := 200, id := none },
      if (nextLoadFromRaw s (readRawData st s) now).2 then
        saveSessionData st
          (ensureLastVersion (nextLoadFromRaw s (readRawData st s) now).1)
      else st) := by
  unfold nextStore
  rw [if_neg hv]
  dsimp only
  have hmsg : (if (nextLoadFromRaw s (readRawData st s) now).2 then
      ensureLastVersion (nextLoadFromRaw s (readRawData st s) now).1
      else (nextLoadFromRaw s (readRawData st s) now).1).messages = [] := by
    by_cases h2 : (nextLoadFromRaw s (readRawData st s) now).2
    · rw [if_pos h2, ensureLastVersion_messages]
      exact hemp
    · rw [if_neg h2]
      exact hemp
  rw [hmsg]
  by_cases h2 : (nextLoadFromRaw s (readRawData st s) now).2
  · rw [if_pos h2, if_pos h2, if_pos h2]
  · rw [if_neg h2, if_neg h2, if_neg h2]

/-- C4: a send against a session whose gate is inactive (an absent session
record reads as inactive) is answered with a 403, `ok = false` and the
distinguishable `sessionActive = false` signal, and the whole store — in
particular the session's message queue and `lastVer` — is left unchanged. -/
theorem C4_gate_closed_rejection (st : Store) (s i : String) (ttl : Option Int)
    (now : Int) (hs : s ≠ "") (hi : i ≠ "")
    (hg : loadSessionStatusActive st s = false) :
    (sendStore st s i ttl now).1 =
      { ok := false, status := 403, ver := none, duplicate := false
        sessionActive := some false } ∧
    (sendStore st s i ttl now).2 = st ∧
    (∀ st2 : Store, st2 (statusKey s) = none →
      loadSessionStatusActive st2 s = false) := by
  have hv : ¬(s = "" ∨ i = "") := by simp [hs, hi]
  refine ⟨?_, ?_, ?_⟩
  · unfold sendStore
    rw [if_neg hv]
    dsimp only
    rw [if_pos hg]
  · unfold sendStore
    rw [if_neg hv]
    dsimp only
    rw [if_pos hg]
  · intro st2 h2
    unfold loadSessionStatusActive
    rw [h2]

/-- Witness for C4 at the empty store and session `"s"`. -/
theorem C4_gate_closed_rejection_witness :
    ("s" : String) ≠ "" ∧ ("X" : String) ≠ "" ∧
    loadSessionStatusActive emptyStore "s" = false ∧
    (sendStore emptyStore "s" "X" none 0).1 =
      { ok := false, status := 403, ver := none, duplicate := false
        sessionActive := some false } ∧
    (sendStore emptyStore "s" "X" none 0).2 = emptyStore :=
  ⟨by decide, by decide, by rfl,
    (C4_gate_closed_rejection emptyStore "s" "X" none 0 (by decide) (by decide)
      (by rfl)).1,
    (C4_gate_closed_rejection emptyStore "s" "X" none 0 (by decide) (by decide)
      (by rfl)).2.1⟩

/-- C10: the gate record and the queue record of a session are disjoint files;
a status write stores exactly the session key, the boolean active flag and
the `lastUpdate` timestamp, touching nothing but the session's status file
(so the queue and `lastVer` are untouched), and a send touches nothing but
the session's data file (so the active flag and `lastUpdate` are untouched). -/
theorem C10_frame_separation (st : Store) (s i : String) (b : Bool) (t : Int)
    (ttl : Option Int) (now : Int) :
    dataKey s ≠ statusKey s ∧
    saveSessionStatus st s b t (dataKey s) = st (dataKey s) ∧
    saveSessionStatus st s b t (statusKey s) =
      some (.statusJson { session := some s, active := some (.vBool b)
                          lastUpdate := some t }) ∧
    (∀ k, k ≠ statusKey s → saveSessionStatus st s b t k = st k) ∧
    (sendStore st s i ttl now).2 (statusKey s) = st (statusKey s) ∧
    (∀ k, k ≠ dataKey s → (sendStore st s i ttl now).2 k = st k) := by
  refine ⟨dataKey_ne_statusKey s, ?_, saveSessionStatus_self st s b t, ?_, ?_, ?_⟩
  · exact saveSessionStatus_ne st s b t _ (dataKey_ne_statusKey s)
  · exact fun k hk => saveSessionStatus_ne st s b t k hk
  · exact sendStore_frame st s i ttl now _
      (fun h => (dataKey_ne_statusKey s) h.symm)
  · exact fun k hk => sendStore_frame st s i ttl now k hk

/-- Witness for C10 at the empty store. -/
theorem C10_frame_separation_witness :
    saveSessionStatus emptyStore "s" true 0 (dataKey "s") =
      emptyStore (dataKey "s") ∧
    (sendStore emptyStore "s" "X" none 0).2 (statusKey "s") =
      emptyStore (statusKey "s") ∧
    saveSessionStatus emptyStore "s" true 0 "other" = emptyStore "other" :=
  ⟨(C10_frame_separation emptyStore "s" "X" true 0 none 0).2.1,
    (C10_frame_separation emptyStore "s" "X" true 0 none 0).2.2.2.2.1,
    (C10_frame_separation emptyStore "s" "X" true 0 none 0).2.2.2.1 "other"
      (by decide)⟩

/-- C6: the effective TTL of every send lies in the configured
`[MIN_MESSAGE_TTL, MAX_MESSAGE_TTL]` range (1 to 60 minutes): a non-finite
(absent or non-numeric) TTL yields the 5-minute default, values below the
minimum are raised to it, values above the maximum are lowered to it, values
inside the range pass through, and the message accepted by `send` carries
`expiresAt = now + sanitizeTTL raw`. -/
theorem C6_ttl_bounding (raw : Option Int) (st : Store) (s i : String)
    (now : Int) (hv : ¬(s = "" ∨ i = ""))
    (hg : ¬(loadSessionStatusActive st s = false))
    (hf : findExistingMessage (loadSessionData st s now).1 i now = none) :
    MIN_MESSAGE_TTL ≤ sanitizeTTL raw ∧ sanitizeTTL raw ≤ MAX_MESSAGE_TTL ∧
    sanitizeTTL none = DEFAULT_MESSAGE_TTL ∧
    MIN_MESSAGE_TTL = 60 * 1000 ∧ MAX_MESSAGE_TTL = 60 * 60 * 1000 ∧
    DEFAULT_MESSAGE_TTL = 5 * 60 * 1000 ∧
    (∀ p : Int, p < MIN_MESSAGE_TTL → sanitizeTTL (some p) = MIN_MESSAGE_TTL) ∧
    (∀ p : Int, p > MAX_MESSAGE_TTL → sanitizeTTL (some p) = MAX_MESSAGE_TTL) ∧
    (∀ p : Int, MIN_MESSAGE_TTL ≤ p → p ≤ MAX_MESSAGE_TTL →
      sanitizeTTL (some p) = p) ∧
    (∃ msgs0 nv, readRawData (sendStore st s i raw now).2 s =
      some (toRaw { session := s, lastVer := some nv
                    messages := msgs0 ++
                      [{ id := i, ver := nv, timestamp := now
                         expiresAt := some (now + sanitizeTTL raw) }] })) := by
  have hbounds : MIN_MESSAGE_TTL ≤ sanitizeTTL raw ∧
      sanitizeTTL raw ≤ MAX_MESSAGE_TTL := by
    cases raw with
    | none => exact ⟨by decide, by decide⟩
    | some p =>
      simp only [sanitizeTTL]
      by_cases h1 : p < MIN_MESSAGE_TTL
      · rw [if_pos h1]
        exact ⟨le_refl _, by decide⟩
      · rw [if_neg h1]
        by_cases h2 : p > MAX_MESSAGE_TTL
        · rw [if_pos h2]
          exact ⟨by decide, le_refl _⟩
        · rw [if_neg h2]
          exact ⟨le_of_not_lt h1, le_of_not_lt h2⟩
  refine ⟨hbounds.1, hbounds.2, rfl, rfl, rfl, rfl, ?_, ?_, ?_, ?_⟩
  · intro p hp
    simp only [sanitizeTTL]
    rw [if_pos hp]
  · intro p hp
    have h1 : ¬p < MIN_MESSAGE_TTL := by
      unfold MIN_MESSAGE_TTL MAX_MESSAGE_TTL at *
      omega
    simp only [sanitizeTTL]
    rw [if_neg h1, if_pos hp]
  · intro p h1 h2
    simp only [sanitizeTTL]
    rw [if_neg (not_lt.mpr h1), if_neg (not_lt.mpr h2)]
  · have hsess : (loadSessionData st s now).1.session = s := by
      rw [loadSessionData_fst, loadFromRaw_session]
    refine ⟨(loadSessionData st s now).1.messages,
      (loadSessionData st s now).1.lastVer.getD
        (Int.ofNat (loadSessionData st s now).1.messages.length) + 1, ?_⟩
    have hrec := readRawData_saveSessionData (loadSessionData st s now).2
      { session := (loadSessionData st s now).1.session
        lastVer := some ((loadSessionData st s now).1.lastVer.getD
          (Int.ofNat (loadSessionData st s now).1.messages.length) + 1)
        messages := (loadSessionData st s now).1.messages ++
          [{ id := i
             ver := (loadSessionData st s now).1.lastVer.getD
               (Int.ofNat (loadSessionData st s now).1.messages.length) + 1
             timestamp := now
             expiresAt := some (now + sanitizeTTL raw) }] } s hsess
    rw [ensureLastVersion_of_some _
      ((loadSessionData st s now).1.lastVer.getD
        (Int.ofNat (loadSessionData st s now).1.messages.length) + 1) rfl] at hrec
    rw [sendStore_eq st s i raw now hv hg]
    simp only [hf]
    exact hrec

/-- Witness for C6: a send with requested TTL 100 ms (below the minimum) on an
active empty session. -/
theorem C6_ttl_bounding_witness :
    ¬(("s" : String) = "" ∨ ("X" : String) = "") ∧
    ¬(loadSessionStatusActive exActiveStore "s" = false) ∧
    findExistingMessage (loadSessionData exActiveStore "s" 0).1 "X" 0 = none ∧
    (MIN_MESSAGE_TTL ≤ sanitizeTTL (some 100) ∧
      sanitizeTTL (some 100) ≤ MAX_MESSAGE_TTL) ∧
    (∃ msgs0 nv, readRawData (sendStore exActiveStore "s" "X" (some 100) 0).2 "s" =
      some (toRaw { session := "s", lastVer := some nv
                    messages := msgs0 ++
                      [{ id := "X", ver := nv, timestamp := 0
                         expiresAt := some (0 + sanitizeTTL (some 100)) }] })) :=
  ⟨by decide, by decide, by decide,
    ⟨(C6_ttl_bounding (some 100) exActiveStore "s" "X" 0 (by decide) (by decide)
        (by decide)).1,
      (C6_ttl_bounding (some 100) exActiveStore "s" "X" 0 (by decide) (by decide)
        (by decide)).2.1⟩,
    (C6_ttl_bounding (some 100) exActiveStore "s" "X" 0 (by decide) (by decide)
      (by decide)).2.2.2.2.2.2.2.2.2⟩

theorem findExistingMessage_some (d : SessionData) (i : String) (now v : Int)
    (h : findExistingMessage d i now = some v) :
    ∃ m ∈ d.messages, m.id = i ∧ m.ver = v ∧ messageExpiresAt m > now := by
  unfold findExistingMessage at h
  cases hfind : d.messages.find?
      (fun m => m.id == i && decide (messageExpiresAt m > now)) with
  | none =>
    rw [hfind] at h
    exact absurd h (by simp)
  | some m =>
    rw [hfind] at h
    simp only [Option.map_some'] at h
    have hp := List.find?_some hfind
    have hmem := List.mem_of_find?_eq_some hfind
    simp only [Bool.and_eq_true, beq_iff_eq, decide_eq_true_eq] at hp
    exact ⟨m, hmem, hp.1, Option.some.inj h, hp.2⟩

theorem findExistingMessage_of_live_uniq (d : SessionData) (i : String)
    (now : Int) (m : SessionMessage) (hm : m ∈ d.messages) (hid : m.id = i)
    (hlive : ∀ m2 ∈ d.messages, messageExpiresAt m2 > now)
    (huniq : ∀ m2 ∈ d.messages, m2.id = i → m2 = m) :
    findExistingMessage d i now = some m.ver := by
  unfold findExistingMessage
  have hsome : (d.messages.find?
      (fun m2 => m2.id == i && decide (messageExpiresAt m2 > now))).isSome := by
    rw [List.find?_isSome]
    exact ⟨m, hm, by simp [hid, hlive m hm]⟩
  obtain ⟨m2, hfind⟩ := Option.isSome_iff_exists.mp hsome
  have hp := List.find?_some hfind
  have hmem := List.mem_of_find?_eq_some hfind
  simp only [Bool.and_eq_true, beq_iff_eq, decide_eq_true_eq] at hp
  rw [hfind]
  rw [huniq m2 hmem hp.1]
  rfl

theorem findExistingMessage_none (d : SessionData) (i : String) (now : Int)
    (h : findExistingMessage d i now = none) :
    ∀ m ∈ d.messages, m.id = i → ¬(messageExpiresAt m > now) := by
  unfold findExistingMessage at h
  rw [Option.map_eq_none'] at h
  rw [List.find?_eq_none] at h
  intro m hm hid hgt
  have := h m hm
  simp [hid, hgt] at this

/-- C5: the purge removes exactly the messages whose effective expiry is
`≤ now` (a message with no stored `expiresAt` expires at
`timestamp + DEFAULT_MESSAGE_TTL`), reports whether anything was removed, and
the loaders re-persist the record only in that case; consequently `next`
never returns an expired message and the duplicate check never counts one. -/
theorem C5_expiry_purge (d : SessionData) (i : String) (now : Int) (st : Store)
    (s : String) (hs : s ≠ "") :
    (∀ m : SessionMessage, m ∈ (purgeExpiredMessages d now).1.messages ↔
      (m ∈ d.messages ∧ messageExpiresAt m > now)) ∧
    (∀ m : SessionMessage, m.expiresAt = none →
      messageExpiresAt m = m.timestamp + DEFAULT_MESSAGE_TTL) ∧
    ((purgeExpiredMessages d now).2 = false ↔
      ∀ m ∈ d.messages, messageExpiresAt m > now) ∧
    ((loadFromRaw s (readRawData st s) now).2 = false →
      (loadSessionData st s now).2 = st) ∧
    ((loadFromRaw s (readRawData st s) now).2 = true →
      (loadSessionData st s now).2 =
        saveSessionData st (loadFromRaw s (readRawData st s) now).1) ∧
    ((nextLoadFromRaw s (readRawData st s) now).2 = false →
      (nextLoadFromRaw s (readRawData st s) now).1.messages = [] →
      (nextStore st s now).2 = st) ∧
    (∀ j, (nextStore st s now).1.id = some j →
      ∃ m2, m2 ∈ (nextLoadFromRaw s (readRawData st s) now).1.messages ∧
        m2.id = j ∧ messageExpiresAt m2 > now) ∧
    (∀ v, findExistingMessage d i now = some v →
      ∃ m2 ∈ d.messages, m2.id = i ∧ m2.ver = v ∧ messageExpiresAt m2 > now) := by
  refine ⟨mem_purge_iff d now, ?_, purge_removed_false_iff d now, ?_, ?_, ?_, ?_, ?_⟩
  · intro m hm
    unfold messageExpiresAt
    rw [hm]
    rfl
  · intro h
    unfold loadSessionData
    dsimp only
    rw [h]
    simp
  · intro h
    unfold loadSessionData
    dsimp only
    rw [h]
    simp
  · intro h hemp
    rw [nextStore_of_empty st s now hs hemp, h]
    simp
  · intro j hj
    obtain ⟨m2, rest, hm2, hid⟩ := nextStore_delivers st s now j hs hj
    refine ⟨m2, ?_, hid, ?_⟩
    · rw [hm2]
      exact List.mem_cons_self m2 rest
    · exact nextLoadFromRaw_live s (readRawData st s) now m2
        (by rw [hm2]; exact List.mem_cons_self m2 rest)
  · exact fun v hv => findExistingMessage_some d i now v hv

/-- Witness for C5: the default-expiry clause evaluated at a concrete
message without a stored `expiresAt`. -/
theorem C5_expiry_purge_witness :
    ("s" : String) ≠ "" ∧
    messageExpiresAt { id := "c", ver := 1, timestamp := 7, expiresAt := none } =
      7 + DEFAULT_MESSAGE_TTL :=
  ⟨by decide,
    (C5_expiry_purge
      { session := "s", lastVer := some 9
        messages := [{ id := "a", ver := 9, timestamp := 0, expiresAt := some 10 },
                     { id := "b", ver := 2, timestamp := 0, expiresAt := some 100 }] }
      "a" 50 emptyStore "s" (by decide)).2.1
      { id := "c", ver := 1, timestamp := 7, expiresAt := none } rfl⟩

/-- C9: registering a viewer prunes stale entries (older than the 10-second
heartbeat window) and any entry for the same device before appending the
fresh entry, so exactly one entry for that device remains and at-most-one-per
device is preserved; reads return only fresh entries of the requested
operator, and after re-registering a device under a new operator no read for
a different operator ever returns that device. -/
theorem C9_viewer_registry (vs : List Viewer) (dId name : String) (opId : Int)
    (now now2 : Int) :
    (∀ v ∈ registerViewer vs dId name opId now,
      (v ∈ vs ∧ viewerFresh now v = true ∧ v.deviceId ≠ dId) ∨
        v = { deviceId := dId, operatorName := name, operatorId := opId
              timestamp := now }) ∧
    ((registerViewer vs dId name opId now).countP
      (fun v => v.deviceId == dId) = 1) ∧
    ((vs.map (fun v => v.deviceId)).Nodup →
      ((registerViewer vs dId name opId now).map (fun v => v.deviceId)).Nodup) ∧
    (∀ op2 : Int, ∀ v ∈ getViewers vs op2 now,
      v ∈ vs ∧ v.operatorId = op2 ∧ now - v.timestamp < 10000) ∧
    (∀ op2 : Int, ∀ v ∈ getViewers (registerViewer vs dId name opId now) op2 now2,
      v.deviceId = dId →
        op2 = opId ∧ v = { deviceId := dId, operatorName := name
                           operatorId := opId, timestamp := now }) := by
  refine ⟨?_, ?_, ?_, ?_, ?_⟩
  · intro v hv
    unfold registerViewer at hv
    rcases List.mem_append.mp hv with h | h
    · left
      have h1 := List.of_mem_filter h
      have h2 := List.mem_of_mem_filter h
      have h3 := List.of_mem_filter h2
      have h4 := List.mem_of_mem_filter h2
      refine ⟨h4, h3, ?_⟩
      simpa using h1
    · right
      simpa using h
  · unfold registerViewer
    rw [List.countP_append]
    have h0 : ((vs.filter (viewerFresh now)).filter
        (fun v => v.deviceId != dId)).countP (fun v => v.deviceId == dId) = 0 := by
      rw [List.countP_eq_zero]
      intro v hv
      have h1 := List.of_mem_filter hv
      simpa using h1
    rw [h0]
    simp
  · intro hnd
    unfold registerViewer
    rw [List.map_append]
    have hsub : List.Sublist
        (((vs.filter (viewerFresh now)).filter (fun v => v.deviceId != dId)).map
          (fun v => v.deviceId))
        (vs.map (fun v => v.deviceId)) :=
      ((List.filter_sublist _).trans (List.filter_sublist _)).map _
    have hnd2 := hnd.sublist hsub
    have hnotin : dId ∉ ((vs.filter (viewerFresh now)).filter
        (fun v => v.deviceId != dId)).map (fun v => v.deviceId) := by
      intro hmem
      rw [List.mem_map] at hmem
      obtain ⟨v, hv, hveq⟩ := hmem
      have h1 := List.of_mem_filter hv
      rw [hveq] at h1
      simp at h1
    refine List.Nodup.append hnd2 (by simp) ?_
    intro a ha hb
    simp only [List.map_cons, List.map_nil, List.mem_singleton] at hb
    subst hb
    exact hnotin ha
  · intro op2 v hv
    unfold getViewers at hv
    have h1 := List.of_mem_filter hv
    have h2 := List.mem_of_mem_filter hv
    simp only [Bool.and_eq_true, beq_iff_eq] at h1
    exact ⟨h2, h1.1, by simpa [viewerFresh] using h1.2⟩
  · intro op2 v hv hdev
    unfold getViewers at hv
    have h1 := List.of_mem_filter hv
    have h2 := List.mem_of_mem_filter hv
    simp only [Bool.and_eq_true, beq_iff_eq] at h1
    unfold registerViewer at h2
    rcases List.mem_append.mp h2 with h | h
    · exfalso
      have h3 := List.of_mem_filter h
      rw [hdev] at h3
      simp at h3
    · have hveq : v = { deviceId := dId, operatorName := name
                        operatorId := opId, timestamp := now } := by
        simpa using h
      constructor
      · rw [hveq] at h1
        exact h1.1.symm
      · exact hveq

/-- Witness for C9: scenario D — device `d1` registers under operator 2 and
then re-registers under operator 3; operator 2's read is empty, operator 3's
read returns exactly the fresh entry. -/
theorem C9_viewer_registry_witness :
    ((([] : List Viewer).map (fun v => v.deviceId)).Nodup →
      (((registerViewer [] "d1" "Mario" 2 0).map (fun v => v.deviceId)).Nodup)) ∧
    getViewers (registerViewer (registerViewer [] "d1" "Mario" 2 0)
      "d1" "Mario" 3 1) 2 1 = [] ∧
    getViewers (registerViewer (registerViewer [] "d1" "Mario" 2 0)
      "d1" "Mario" 3 1) 3 1 =
      [{ deviceId := "d1", operatorName := "Mario", operatorId := 3
         timestamp := 1 }] :=
  ⟨(C9_viewer_registry [] "d1" "Mario" 2 0 0).2.2.1, by decide, by decide⟩

theorem nextStore_stable_of_empty (st2 : Store) (s : String) (t2 : Int)
    (hs : ¬s = "")
    (hemp2 : (nextLoadFromRaw s (readRawData st2 s) t2).1.messages = [])
    (hrm2 : (nextLoadFromRaw s (readRawData st2 s) t2).2 = false) :
    nextStore st2 s t2 = ({ ok := true, status := 200, id := none }, st2) := by
  rw [nextStore_of_empty st2 s t2 hs hemp2, hrm2]
  simp

/-- C8: a `next` whose loaded-and-purged queue is empty answers `ok = true`
with no id (a non-error outcome, independent of the gate record), and once
that has happened every further `next` call leaves the stored session record
untouched and keeps answering no id. -/
theorem C8_next_empty_idempotent (st : Store) (s : String) (t1 : Int)
    (hs : s ≠ "") (h1 : (nextStore st s t1).1.id = none) :
    (nextStore st s t1).1 = { ok := true, status := 200, id := none } ∧
    (∀ t2 : Int, nextStore ((nextStore st s t1).2) s t2 =
      ({ ok := true, status := 200, id := none }, (nextStore st s t1).2)) ∧
    (∀ (b : Bool) (t0 : Int),
      (nextStore (saveSessionStatus st s b t0) s t1).1 = (nextStore st s t1).1) := by
  have hemp := (nextStore_noid_iff st s t1 hs).mp h1
  have hfull := nextStore_of_empty st s t1 hs hemp
  refine ⟨by rw [hfull], ?_, ?_⟩
  · intro t2
    rw [hfull]
    by_cases hrm : (nextLoadFromRaw s (readRawData st s) t1).2
    · rw [if_pos hrm]
      obtain ⟨w, hw⟩ :=
        ensureLastVersion_lastVer_isSome (nextLoadFromRaw s (readRawData st s) t1).1
      have hsess : (ensureLastVersion (nextLoadFromRaw s (readRawData st s) t1).1).session
          = s := by
        rw [ensureLastVersion_session]
        exact nextLoadFromRaw_session s _ t1
      have hrec := readRawData_saveSessionData st
        (ensureLastVersion (nextLoadFromRaw s (readRawData st s) t1).1) s hsess
      rw [ensureLastVersion_of_some _ w hw] at hrec
      have hmsgs : (ensureLastVersion (nextLoadFromRaw s (readRawData st s) t1).1).messages
          = [] := by
        rw [ensureLastVersion_messages]
        exact hemp
      have hload := nextLoadFromRaw_toRaw s
        (ensureLastVersion (nextLoadFromRaw s (readRawData st s) t1).1) t2
        (by rw [hmsgs]; intro m hm; cases hm)
      refine nextStore_stable_of_empty _ s t2 hs ?_ ?_
      · rw [hrec, hload]
        exact hmsgs
      · rw [hrec, hload]
    · rw [if_neg hrm]
      have hst := nextLoad_empty_stable s (readRawData st s) t1 t2 hemp
        (Bool.not_eq_true _ ▸ (by simpa using hrm))
      exact nextStore_stable_of_empty st s t2 hs hst.1 hst.2
  · intro b t0
    rw [nextStore_resp _ s t1 hs, nextStore_resp st s t1 hs,
      readRawData_saveSessionStatus]

/-- Witness for C8 at the empty store. -/
theorem C8_next_empty_idempotent_witness :
    ("s" : String) ≠ "" ∧ (nextStore emptyStore "s" 0).1.id = none ∧
    (nextStore emptyStore "s" 0).1 = { ok := true, status := 200, id := none } ∧
    nextStore ((nextStore emptyStore "s" 0).2) "s" 5 =
      ({ ok := true, status := 200, id := none }, (nextStore emptyStore "s" 0).2) ∧
    (nextStore (saveSessionStatus emptyStore "s" true 3) "s" 0).1 =
      (nextStore emptyStore "s" 0).1 :=
  ⟨by decide, by decide,
    (C8_next_empty_idempotent emptyStore "s" 0 (by decide) (by decide)).1,
    (C8_next_empty_idempotent emptyStore "s" 0 (by decide) (by decide)).2.1 5,
    (C8_next_empty_idempotent emptyStore "s" 0 (by decide) (by decide)).2.2 true 3⟩

theorem sanitizeTTL_min_le (raw : Option Int) :
    MIN_MESSAGE_TTL ≤ sanitizeTTL raw := by
  cases raw with
  | none => decide
  | some p =>
    simp only [sanitizeTTL]
    by_cases h1 : p < MIN_MESSAGE_TTL
    · rw [if_pos h1]
    · rw [if_neg h1]
      by_cases h2 : p > MAX_MESSAGE_TTL
      · rw [if_pos h2]
        decide
      · rw [if_neg h2]
        exact le_of_not_lt h1

theorem sanitizeTTL_pos (raw : Option Int) : 0 < sanitizeTTL raw :=
  lt_of_lt_of_le (by decide) (sanitizeTTL_min_le raw)

theorem loadFromRaw_of_toRaw_live (s : String) (d : SessionData) (now : Int)
    (hlv : d.lastVer.isSome)
    (hlive : ∀ m ∈ d.messages, messageExpiresAt m > now) :
    (loadFromRaw s (some (toRaw d)) now).1.messages = d.messages := by
  rw [loadFromRaw_toRaw s d now hlv hlive]

/-- C1: when a live message with the requested id already sits in the loaded
(and purged) queue, `send` answers success with that message's version and
`duplicate = true`, the queue of live messages is left unchanged, and every
send preserves the at-most-one-live-message-per-id invariant. -/
theorem C1_duplicate_suppression (st : Store) (s i : String) (ttl : Option Int)
    (now : Int) (m : SessionMessage)
    (hv : ¬(s = "" ∨ i = ""))
    (hg : ¬(loadSessionStatusActive st s = false))
    (hm : m ∈ (loadFromRaw s (readRawData st s) now).1.messages)
    (hid : m.id = i)
    (huniq : ∀ m2 ∈ (loadFromRaw s (readRawData st s) now).1.messages,
      m2.id = i → m2 = m) :
    (sendStore st s i ttl now).1 =
      { ok := true, status := 200, ver := some m.ver, duplicate := true
        sessionActive := none } ∧
    (loadFromRaw s (readRawData (sendStore st s i ttl now).2 s) now).1.messages =
      (loadFromRaw s (readRawData st s) now).1.messages ∧
    (∀ (st2 : Store) (i2 : String) (ttl2 : Option Int) (now2 : Int),
      ((loadFromRaw s (readRawData st2 s) now2).1.messages.map
        (fun m2 => m2.id)).Nodup →
      ((loadFromRaw s (readRawData (sendStore st2 s i2 ttl2 now2).2 s) now2).1.messages.map
        (fun m2 => m2.id)).Nodup) := by
  have hfind : findExistingMessage (loadSessionData st s now).1 i now = some m.ver := by
    rw [loadSessionData_fst]
    exact findExistingMessage_of_live_uniq _ i now m hm hid
      (loadFromRaw_live s _ now) huniq
  refine ⟨?_, ?_, ?_⟩
  · rw [sendStore_eq st s i ttl now hv hg]
    simp only [hfind]
  · rw [sendStore_eq st s i ttl now hv hg]
    simp only [hfind]
    rcases loadSessionData_record st s now with h | h
    · rw [h]
    · rw [h]
      exact loadFromRaw_of_toRaw_live s _ now
        (by
          obtain ⟨v, hv2⟩ := loadFromRaw_lastVer_isSome s (readRawData st s) now
          rw [hv2]
          rfl)
        (loadFromRaw_live s _ now)
  · intro st2 i2 ttl2 now2 hnd
    by_cases hv2 : s = "" ∨ i2 = ""
    · have heq : (sendStore st2 s i2 ttl2 now2).2 = st2 := by
        unfold sendStore
        rw [if_pos hv2]
      rw [heq]
      exact hnd
    · by_cases hg2 : loadSessionStatusActive st2 s = false
      · have heq : (sendStore st2 s i2 ttl2 now2).2 = st2 := by
          unfold sendStore
          rw [if_neg hv2]
          dsimp only
          rw [if_pos hg2]
        rw [heq]
        exact hnd
      · rw [sendStore_eq st2 s i2 ttl2 now2 hv2 hg2]
        cases hf2 : findExistingMessage (loadSessionData st2 s now2).1 i2 now2 with
        | some v =>
          simp only [hf2]
          rcases loadSessionData_record st2 s now2 with h | h
          · rw [h]
            exact hnd
          · rw [h]
            rw [loadFromRaw_of_toRaw_live s _ now2
              (by
                obtain ⟨v2, hv3⟩ := loadFromRaw_lastVer_isSome s (readRawData st2 s) now2
                rw [hv3]
                rfl)
              (loadFromRaw_live s _ now2)]
            exact hnd
        | none =>
          simp only [hf2]
          have hsess : (loadSessionData st2 s now2).1.session = s := by
            rw [loadSessionData_fst, loadFromRaw_session]
          have hrec := readRawData_saveSessionData (loadSessionData st2 s now2).2
            { session := (loadSessionData st2 s now2).1.session
              lastVer := some ((loadSessionData st2 s now2).1.lastVer.getD
                (Int.ofNat (loadSessionData st2 s now2).1.messages.length) + 1)
              messages := (loadSessionData st2 s now2).1.messages ++
                [{ id := i2
                   ver := (loadSessionData st2 s now2).1.lastVer.getD
                     (Int.ofNat (loadSessionData st2 s now2).1.messages.length) + 1
                   timestamp := now2
                   expiresAt := some (now2 + sanitizeTTL ttl2) }] } s hsess
          rw [ensureLastVersion_of_some _
            ((loadSessionData st2 s now2).1.lastVer.getD
              (Int.ofNat (loadSessionData st2 s now2).1.messages.length) + 1) rfl] at hrec
          rw [hrec]
          rw [loadFromRaw_of_toRaw_live s _ now2 (by rfl) ?hlive]
          case hlive =>
            intro m2 hm2
            rcases List.mem_append.mp hm2 with h2 | h2
            · rw [loadSessionData_fst] at h2
              exact loadFromRaw_live s _ now2 m2 h2
            · rw [List.mem_singleton] at h2
              subst h2
              show messageExpiresAt _ > now2
              have : messageExpiresAt
                  { id := i2
                    ver := (loadSessionData st2 s now2).1.lastVer.getD
                      (Int.ofNat (loadSessionData st2 s now2).1.messages.length) + 1
                    timestamp := now2
                    expiresAt := some (now2 + sanitizeTTL ttl2) } =
                  now2 + sanitizeTTL ttl2 := rfl
              rw [this]
              have := sanitizeTTL_pos ttl2
              omega
          · dsimp only
            rw [List.map_append]
            rw [loadSessionData_fst st2 s now2]
            refine List.Nodup.append hnd (by simp) ?_
            intro a ha hb
            simp only [List.map_cons, List.map_nil, List.mem_singleton] at hb
            subst hb
            rw [List.mem_map] at ha
            obtain ⟨m2, hm2, hideq⟩ := ha
            have hnone := findExistingMessage_none _ a now2
              (by rw [loadSessionData_fst] at hf2; exact hf2) m2 hm2 hideq
            exact hnone (loadFromRaw_live s _ now2 m2 hm2)

/-- Witness for C1: a second send of `"X"` against `exStore1` (which already
holds a live `"X"` with version 1). -/
theorem C1_duplicate_suppression_witness :
    ¬(("s" : String) = "" ∨ ("X" : String) = "") ∧
    (sendStore exStore1 "s" "X" none 6).1 =
      { ok := true, status := 200, ver := some 1, duplicate := true
        sessionActive := none } ∧
    (loadFromRaw "s" (readRawData (sendStore exStore1 "s" "X" none 6).2 "s") 6).1.messages =
      (loadFromRaw "s" (readRawData exStore1 "s") 6).1.messages := by
  have h := C1_duplicate_suppression exStore1 "s" "X" none 6
    { id := "X", ver := 1, timestamp := 5, expiresAt := some (5 + 300000) }
    (by decide) (by decide) (by decide) (by decide) (by decide)
  exact ⟨by decide, h.1, h.2.1⟩

/-- C3: on a well-formed session record whose loaded (purged) queue is
non-empty, `next` returns the id of the head — the earliest-inserted live
message, since sends append at the tail — and persists the record without it;
identifying the consumed message by its version (unique in a well-formed
record), it never reappears in the stored queue after any further sequence of
operations, and no later `next` ever delivers it again. -/
theorem C3_consume_once_fifo (st : Store) (s : String) (now : Int)
    (m : SessionMessage) (rest : List SessionMessage)
    (hs : s ≠ "") (hW : WFr (readRawData st s))
    (hm : (nextLoadFromRaw s (readRawData st s) now).1.messages = m :: rest) :
    (nextStore st s now).1 = { ok := true, status := 200, id := some m.id } ∧
    readRawData (nextStore st s now).2 s =
      some (toRaw { session := (nextLoadFromRaw s (readRawData st s) now).1.session
                    lastVer := (nextLoadFromRaw s (readRawData st s) now).1.lastVer
                    messages := rest }) ∧
    (∀ ops : List QOp,
      m.ver ∉ rawVers (readRawData (applyOps s ops (nextStore st s now).2) s)) ∧
    (∀ (ops : List QOp) (now2 : Int) (j : String),
      (nextStore (applyOps s ops (nextStore st s now).2) s now2).1.id = some j →
      ∃ m2 rest2,
        (nextLoadFromRaw s
          (readRawData (applyOps s ops (nextStore st s now).2) s) now2).1.messages =
          m2 :: rest2 ∧ m2.id = j ∧ m2.ver ≠ m.ver) := by
  obtain ⟨hlv, hbm, hnd⟩ := nextLoadFromRaw_WF s (readRawData st s) now hW
  have hsess : (nextLoadFromRaw s (readRawData st s) now).1.session = s :=
    nextLoadFromRaw_session s _ now
  have hrec : readRawData (nextStore st s now).2 s =
      some (toRaw { session := (nextLoadFromRaw s (readRawData st s) now).1.session
                    lastVer := (nextLoadFromRaw s (readRawData st s) now).1.lastVer
                    messages := rest }) := by
    rw [nextStore_snd_cons st s now m rest hs (rawLast (readRawData st s)) hlv hm]
    rw [readRawData_saveSessionData _
      (SessionData.mk (nextLoadFromRaw s (readRawData st s) now).1.session
        (nextLoadFromRaw s (readRawData st s) now).1.lastVer rest) s hsess]
    rw [ensureLastVersion_of_some
      (SessionData.mk (nextLoadFromRaw s (readRawData st s) now).1.session
        (nextLoadFromRaw s (readRawData st s) now).1.lastVer rest)
      (rawLast (readRawData st s)) hlv]
  have hWpost : WFr (readRawData (nextStore st s now).2 s) :=
    (next_record_inv st s now hW).1
  have hmemhead : m ∈ (nextLoadFromRaw s (readRawData st s) now).1.messages := by
    rw [hm]
    exact List.mem_cons_self m rest
  have hnotin : m.ver ∉ rawVers (readRawData (nextStore st s now).2 s) := by
    rw [hrec, rawVers_toRaw]
    rw [hm, List.map_cons] at hnd
    exact (List.nodup_cons.mp hnd).1
  have hle : m.ver ≤ rawLast (readRawData (nextStore st s now).2 s) := by
    rw [hrec, rawLast_toRaw]
    show m.ver ≤ ((nextLoadFromRaw s (readRawData st s) now).1.lastVer).getD 0
    rw [hlv]
    exact (hbm m hmemhead).1
  have havoid : ∀ ops : List QOp,
      m.ver ∉ rawVers (readRawData (applyOps s ops (nextStore st s now).2) s) :=
    fun ops => (applyOps_record_inv s ops (nextStore st s now).2 hWpost).2.2
      m.ver hle hnotin
  refine ⟨?_, hrec, havoid, ?_⟩
  · rw [nextStore_resp st s now hs, hm]
  · intro ops now2 j hj
    obtain ⟨m2, rest2, hm2, hid2⟩ :=
      nextStore_delivers (applyOps s ops (nextStore st s now).2) s now2 j hs hj
    have hWN : WFr (readRawData (applyOps s ops (nextStore st s now).2) s) :=
      (applyOps_record_inv s ops (nextStore st s now).2 hWpost).1
    have hm2mem : m2 ∈ (nextLoadFromRaw s
        (readRawData (applyOps s ops (nextStore st s now).2) s) now2).1.messages := by
      rw [hm2]
      exact List.mem_cons_self m2 rest2
    have hm2vers := (nextLoadFromRaw_WF s
      (readRawData (applyOps s ops (nextStore st s now).2) s) now2 hWN).2.1
      m2 hm2mem
    refine ⟨m2, rest2, hm2, hid2, ?_⟩
    intro hveq
    exact havoid ops (hveq ▸ hm2vers.2)

/-- Witness for C3: consuming the head of the two-message queue of
`exStore2`. -/
theorem C3_consume_once_fifo_witness :
    (("s" : String) ≠ "") ∧
    (nextStore exStore2 "s" 7).1 = { ok := true, status := 200, id := some "X" } ∧
    (1 : Int) ∉ rawVers
      (readRawData (applyOps "s" [] (nextStore exStore2 "s" 7).2) "s") := by
  have h := C3_consume_once_fifo exStore2 "s" 7
    { id := "X", ver := 1, timestamp := 5, expiresAt := some 300005 }
    [{ id := "Y", ver := 2, timestamp := 6, expiresAt := some 300006 }]
    (by decide) ⟨2, rfl, by decide, by decide⟩ (by decide)
  exact ⟨by decide, h.1, h.2.2.1 []⟩

/-- Counterexample to C2 as stated: the legacy stored record `rawLegacy`
(no `lastVer` field; its version-9 message expires at time 10, its version-2
message at time 100) loads with `lastVer = 9` at time 5 — without being
re-persisted, since nothing was purged — and the very same stored record
loads with `lastVer = 2` at time 50: the logical clock decreases across
loads and falls below the version 9 present in the record. -/
theorem C2_counterexample :
    (9 : Int) ∈ rawVers (some rawLegacy) ∧
    rawLegacy.lastVer = none ∧
    (loadFromRaw "s" (some rawLegacy) 5).1.lastVer = some 9 ∧
    (loadFromRaw "s" (some rawLegacy) 5).2 = false ∧
    (loadFromRaw "s" (some rawLegacy) 50).1.lastVer = some 2 ∧
    ¬((9 : Int) ≤ 2) := by
  decide

/-- C2 (amended): on records carrying a numeric `lastVer` that bounds their
message versions — the shape every write of these routes maintains — the
logical clock `lastVer` never decreases under any sequence of send / next /
status operations, live message versions stay pairwise distinct, and an
accepted send is assigned version `lastVer + 1`, which becomes the new clock;
for a stored record lacking `lastVer`, the load-time default is the highest
version among the messages that survive the purge (thereby bounding every
surviving message, though not already-expired ones). -/
theorem C2_lastVersion_logical_clock (s : String) (st : Store) (ops : List QOp)
    (nowq : Int) (i : String) (ttl : Option Int) (now : Int)
    (hW : WFr (readRawData st s))
    (hv : ¬(s = "" ∨ i = ""))
    (hg : ¬(loadSessionStatusActive st s = false))
    (hf : findExistingMessage (loadSessionData st s now).1 i now = none) :
    (WFr (readRawData (applyOps s ops st) s) ∧
      rawLast (readRawData st s) ≤ rawLast (readRawData (applyOps s ops st) s)) ∧
    ((loadFromRaw s (readRawData (applyOps s ops st) s) nowq).1.messages.map
      (fun m2 => m2.ver)).Nodup ∧
    ((sendStore st s i ttl now).1.ver =
        some (rawLast (readRawData st s) + 1) ∧
      rawLast (readRawData (sendStore st s i ttl now).2 s) =
        rawLast (readRawData st s) + 1) ∧
    (∀ (msgs : List RawMessage) (now2 : Int),
      (loadFromRaw s (some { lastVer := none, messages := some msgs }) now2).1.lastVer =
        some (highestVersion
          (loadFromRaw s (some { lastVer := none, messages := some msgs }) now2).1.messages) ∧
      (∀ m2 ∈ (loadFromRaw s
          (some { lastVer := none, messages := some msgs }) now2).1.messages,
        m2.ver ≤ highestVersion (loadFromRaw s
          (some { lastVer := none, messages := some msgs }) now2).1.messages)) := by
  have htr := applyOps_record_inv s ops st hW
  have hld := loadFromRaw_WF s (readRawData st s) now hW
  refine ⟨⟨htr.1, htr.2.1⟩, ?_, ⟨?_, ?_⟩, ?_⟩
  · exact (loadFromRaw_WF s (readRawData (applyOps s ops st) s) nowq htr.1).2.2
  · rw [sendStore_eq st s i ttl now hv hg]
    simp only [hf]
    rw [loadSessionData_fst, hld.1]
    rfl
  · rw [sendStore_eq st s i ttl now hv hg]
    simp only [hf]
    have hsess : (loadSessionData st s now).1.session = s := by
      rw [loadSessionData_fst, loadFromRaw_session]
    have hrec := readRawData_saveSessionData (loadSessionData st s now).2
      { session := (loadSessionData st s now).1.session
        lastVer := some ((loadSessionData st s now).1.lastVer.getD
          (Int.ofNat (loadSessionData st s now).1.messages.length) + 1)
        messages := (loadSessionData st s now).1.messages ++
          [{ id := i
             ver := (loadSessionData st s now).1.lastVer.getD
               (Int.ofNat (loadSessionData st s now).1.messages.length) + 1
             timestamp := now
             expiresAt := some (now + sanitizeTTL ttl) }] } s hsess
    rw [ensureLastVersion_of_some _
      ((loadSessionData st s now).1.lastVer.getD
        (Int.ofNat (loadSessionData st s now).1.messages.length) + 1) rfl] at hrec
    rw [hrec, rawLast_toRaw]
    show ((loadSessionData st s now).1.lastVer.getD
      (Int.ofNat (loadSessionData st s now).1.messages.length) + 1) =
      rawLast (readRawData st s) + 1
    rw [loadSessionData_fst, hld.1]
    rfl
  · intro msgs now2
    constructor
    · rfl
    · intro m2 hm2
      unfold loadFromRaw at hm2 ⊢
      dsimp only at hm2 ⊢
      rw [ensureLastVersion_messages] at hm2 ⊢
      exact mem_le_highestVersion _ m2 hm2

/-- Witness for C2 (amended) at the freshly-activated empty session. -/
theorem C2_lastVersion_logical_clock_witness :
    WFr (readRawData exActiveStore "s") ∧
    rawLast (readRawData exActiveStore "s") ≤
      rawLast (readRawData (applyOps "s" [QOp.qnext 1] exActiveStore) "s") ∧
    (sendStore exActiveStore "s" "X" none 0).1.ver =
      some (rawLast (readRawData exActiveStore "s") + 1) := by
  have h := C2_lastVersion_logical_clock "s" exActiveStore [QOp.qnext 1] 0
    "X" none 0 (by exact trivial) (by decide) (by decide) (by decide)
  exact ⟨by exact trivial, h.1.2, h.2.2.1.1⟩

/-- Counterexample to C7 as stated: the record `rawNoLast` has a messages
array, a live version-5 message and no `lastVer` field, yet it loads with
`lastVer = 5`, not 0; and a status file whose `active` field holds the
(truthy, non-boolean) string "false" reads as active, not inactive. -/
theorem C7_counterexample :
    rawNoLast.lastVer = none ∧
    (loadFromRaw "s" (some rawNoLast) 0).1.lastVer = some 5 ∧
    some (5 : Int) ≠ some (0 : Int) ∧
    loadSessionStatusActive exMalformedStatusStore "s" = true := by
  decide

/-- C7 (amended): loading always yields a fully-defaulted record — `lastVer`
is always a number afterwards; a missing or unparsable data file, or one
without a messages array, loads as the zero record (inactive is the gate
default, empty queue, `lastVer = 0`, discarding any stored `lastVer`); with a
messages array present, a stored numeric `lastVer` is kept and an absent one
defaults to the highest version among the messages surviving the purge (0 for
an empty queue); a missing status file or an absent `active` field reads as
inactive, a stored boolean `active` reads as itself, while a present
non-boolean value is read by JS truthiness. -/
theorem C7_load_defaulting (s : String) (st : Store) (now : Int)
    (r : RawSessionData) :
    loadFromRaw s none now =
      ({ session := s, lastVer := some 0, messages := [] }, false) ∧
    (r.messages = none → loadFromRaw s (some r) now =
      ({ session := s, lastVer := some 0, messages := [] }, false)) ∧
    (st (dataKey s) = none → readRawData st s = none) ∧
    (st (dataKey s) = some .unparsable → readRawData st s = none) ∧
    (∀ raw0 : Option RawSessionData,
      ∃ v, (loadFromRaw s raw0 now).1.lastVer = some v) ∧
    (∀ (v : Int) (msgs : List RawMessage), r.lastVer = some v →
      r.messages = some msgs → (loadFromRaw s (some r) now).1.lastVer = some v) ∧
    (∀ msgs : List RawMessage, r.lastVer = none → r.messages = some msgs →
      (loadFromRaw s (some r) now).1.lastVer =
        some (highestVersion (loadFromRaw s (some r) now).1.messages)) ∧
    (loadFromRaw s (some { lastVer := none, messages := some [] }) now).1.lastVer =
      some 0 ∧
    (st (statusKey s) = none → loadSessionStatusActive st s = false) ∧
    (∀ rawst : RawStatus, st (statusKey s) = some (.statusJson rawst) →
      rawst.active = none → loadSessionStatusActive st s = false) ∧
    (∀ (rawst : RawStatus) (b : Bool), st (statusKey s) = some (.statusJson rawst) →
      rawst.active = some (.vBool b) → loadSessionStatusActive st s = b) ∧
    (∀ (rawst : RawStatus) (j : JsVal), st (statusKey s) = some (.statusJson rawst) →
      rawst.active = some j → loadSessionStatusActive st s = j.truthy) := by
  obtain ⟨rl, rm⟩ := r
  refine ⟨rfl, ?_, ?_, ?_, ?_, ?_, ?_, rfl, ?_, ?_, ?_, ?_⟩
  · intro h
    simp only at h
    subst h
    rfl
  · intro h
    unfold readRawData
    rw [h]
  · intro h
    unfold readRawData
    rw [h]
  · exact fun raw0 => loadFromRaw_lastVer_isSome s raw0 now
  · intro v msgs h1 h2
    simp only at h1 h2
    subst h1
    subst h2
    unfold loadFromRaw
    dsimp only
    rw [ensureLastVersion_of_some _ v (by rw [purge_fst_lastVer])]
    rw [purge_fst_lastVer]
  · intro msgs h1 h2
    simp only at h1 h2
    subst h1
    subst h2
    rfl
  · intro h
    unfold loadSessionStatusActive
    rw [h]
  · intro rawst h1 h2
    unfold loadSessionStatusActive
    rw [h1]
    dsimp only
    rw [h2]
    rfl
  · intro rawst b h1 h2
    unfold loadSessionStatusActive
    rw [h1]
    dsimp only
    rw [h2]
    rfl
  · intro rawst j h1 h2
    unfold loadSessionStatusActive
    rw [h1]
    dsimp only
    rw [h2]
    rfl

/-- Witness for C7 (amended): a record with a messages array and a stored
`lastVer = 7` keeps it at load time, and the zero-record clauses at the empty
store. -/
theorem C7_load_defaulting_witness :
    (loadFromRaw "s"
      (some { lastVer := some 7, messages := some [{ id := some "a", ver := some 3, timestamp := some 0, expiresAt := some 100 }] })
      0).1.lastVer = some 7 ∧
    (emptyStore (statusKey "s") = none →
      loadSessionStatusActive emptyStore "s" = false) ∧
    loadFromRaw "s" none 0 =
      ({ session := "s", lastVer := some 0, messages := [] }, false) := by
  have h := C7_load_defaulting "s" emptyStore 0
    { lastVer := some 7, messages := some [{ id := some "a", ver := some 3, timestamp := some 0, expiresAt := some 100 }] }
  exact ⟨h.2.2.2.2.2.1 7 _ rfl rfl, h.2.2.2.2.2.2.2.2.1, h.1⟩
